import Mathlib

set_option maxRecDepth 20000
set_option maxHeartbeats 1000000

/- Verification development for the recap-canvas summarization and citation
   engine.  The TypeScript sources are shallowly embedded: JS strings are
   modelled as Lean `String` (a wrapper around `List Char`), with all lengths
   and offsets counted in characters; JS arrays become `List`; the insertion
   ordered `Map` used by the citation registry becomes an association list to
   which fresh keys are appended.  All definitions are executable. -/

/- ===== Character-list utilities modelling the JS string operations ===== -/

/-- Whitespace test used for the JS regex class backslash-s and for trim. -/
def isWs (c : Char) : Bool := c.isWhitespace

/-- Model of `text.replace(/\s+/g, ' ')`: every maximal whitespace run
    becomes a single space.  A whitespace character is dropped when the next
    character is also whitespace, otherwise it becomes one space. -/
def normSpaces : List Char → List Char
  | [] => []
  | c :: rest =>
    if isWs c then
      match rest with
      | [] => [' ']
      | d :: _ => if isWs d then normSpaces rest else ' ' :: normSpaces rest
    else c :: normSpaces rest

/-- Model of `String.prototype.trim`. -/
def trimCh (l : List Char) : List Char :=
  ((l.dropWhile isWs).reverse.dropWhile isWs).reverse

/-- Model of `String.prototype.toLowerCase` (ASCII range, which is all the
    source keywords use). -/
def lowerCh (l : List Char) : List Char := l.map Char.toLower

/-- Model of `String.prototype.split(sep)` for a single-character separator. -/
def charSplit (sep : Char) : List Char → List (List Char)
  | [] => [[]]
  | c :: rest =>
    if c = sep then [] :: charSplit sep rest
    else
      match charSplit sep rest with
      | [] => [[c]]
      | h :: t => (c :: h) :: t

/-- Model of `Array.prototype.join(sep)` for a single-character separator. -/
def charJoin (sep : Char) : List (List Char) → List Char
  | [] => []
  | [l] => l
  | l :: rest => l ++ sep :: charJoin sep rest

/-- Substring test (`String.prototype.includes`) on character lists. -/
def containsSub (pat : List Char) : List Char → Bool
  | [] => pat.isEmpty
  | c :: rest => pat.isPrefixOf (c :: rest) || containsSub pat rest

/- ===== String-level wrappers ===== -/

/-- JS `trim` on `String`. -/
def trimStr (s : String) : String := ⟨trimCh s.data⟩

/-- JS `toLowerCase` on `String`. -/
def lowerStr (s : String) : String := ⟨lowerCh s.data⟩

/-- JS `includes` on `String`. -/
def containsStr (s pat : String) : Bool := containsSub pat.data s.data

/-- True when the string contains the given character (used to state the
    separator-freeness hypotheses about block IDs). -/
def hasChar (s : String) (c : Char) : Bool := s.data.contains c

/-- JS `s.split('|')` on `String`. -/
def splitPipeS (s : String) : List String :=
  (charSplit '|' s.data).map (fun cs => (⟨cs⟩ : String))

/-- JS `arr.join('|')` for an array of strings. -/
def joinPipeS (l : List String) : String := ⟨charJoin '|' (l.map String.data)⟩

/-- JS `arr.join('\n')` for an array of strings. -/
def joinNl (l : List String) : String := ⟨charJoin '\n' (l.map String.data)⟩

/-- JS `s.split('\n')` on `String`. -/
def splitNl (s : String) : List String :=
  (charSplit '\n' s.data).map (fun cs => (⟨cs⟩ : String))

/-- Character count of a string: the number of UTF-16 units of the JS string
    for all inputs whose characters lie in the basic plane (the model of JS
    `String.prototype.length`). -/
def lenS (s : String) : Nat := s.data.length

/-- Model of `summaryText.slice(start, stop)`: the characters of `s` from
    offset `a` (inclusive) to `b` (exclusive). -/
def sliceChars (s : String) (a b : Nat) : String := ⟨(s.data.drop a).take (b - a)⟩

/-- True when any of the keyword strings occurs in `s` (the model of an
    alternation regex of plain keywords tested with `.test`/`includes`). -/
def containsAny (s : String) (keys : List String) : Bool :=
  keys.any (fun k => containsStr s k)

/-- Model of a regex `p1.*p2` test: an occurrence of `p1` followed, with no
    newline in between (JS dot does not match newlines), by an occurrence of
    `p2`. -/
def seqMatchCh (p1 p2 : List Char) : List Char → Bool
  | [] => p1.isEmpty && containsSub p2 []
  | c :: rest =>
    (p1.isPrefixOf (c :: rest)
      && containsSub p2 (((c :: rest).drop p1.length).takeWhile (fun d => d ≠ '\n')))
    || seqMatchCh p1 p2 rest

/-- String-level wrapper for `seqMatchCh`. -/
def seqMatch (s p1 p2 : String) : Bool := seqMatchCh p1.data p2.data s.data

/- ===== The data model (src/src/models/canvas.ts) ===== -/

/-- Common block attributes (`BlockBase`).  JS numbers for geometry are
    modelled as integers; they are never interpreted by the core. -/
structure BlockBase where
  id : String
  x : Int
  y : Int
  width : Int
  height : Option Int
  createdAt : String
  updatedAt : String
deriving DecidableEq, Repr

/-- The four structured sections of the older summary shape
    (`SummarySections`). -/
structure SummarySections where
  what : String
  decisions : String
  constraints : String
  assumptions : String
deriving DecidableEq, Repr

/-- A numbered citation entry (`Citation`). -/
structure Citation where
  n : Nat
  blockIds : List String
deriving DecidableEq, Repr

/-- A span of the summary text (`SummarySpan`).  The source field `end` is a
    Lean keyword and is rendered here as `stop`. -/
structure SummarySpan where
  start : Nat
  stop : Nat
  citationNs : List Nat
deriving DecidableEq, Repr

/-- The closed tagged union of blocks (`Block`).  The source field
    `aspectRatio` of image blocks is rendered here as `aspect`. -/
inductive Block where
  | text (base : BlockBase) (text : String)
  | image (base : BlockBase) (src : String) (aspect : Option Int)
  | link (base : BlockBase) (url : String) (label : String)
  | summary (base : BlockBase) (title : String) (sections : Option SummarySections)
      (evidenceBlockIds : List String) (summaryText : String)
      (citations : List Citation) (spans : List SummarySpan)
deriving DecidableEq, Repr

/-- The identifier of a block (`block.id`). -/
def Block.id : Block → String
  | .text base _ => base.id
  | .image base _ _ => base.id
  | .link base _ _ => base.id
  | .summary base _ _ _ _ _ _ => base.id

/-- The content-bearing projection of a block: its identifier, its variant
    tag, and the fields the summarizer reads (`text` for text blocks, `label`
    and `url` for link blocks).  Geometry, timestamps, image sources and the
    payload of summary blocks are erased. -/
inductive BlockKey where
  | text (id : String) (text : String)
  | image (id : String)
  | link (id : String) (url : String) (label : String)
  | summary (id : String)
deriving DecidableEq, Repr

/-- Project a block to its content key. -/
def contentKey : Block → BlockKey
  | .text base t => .text base.id t
  | .image base _ _ => .image base.id
  | .link base url label => .link base.id url label
  | .summary base _ _ _ _ _ _ => .summary base.id

/-- The result record of `summarizeSelection` (the `SummaryContent` type of
    the spans-and-citations variant of src/src/ai/summarize.ts). -/
structure SummaryContent where
  title : String
  summaryText : String
  citations : List Citation
  spans : List SummarySpan
  evidenceBlockIds : List String
deriving DecidableEq, Repr

/- ===== The summarizer (spans-and-citations variant, src/src/ai/summarize.ts) ===== -/

/-- Model of `normalize` (renamed, the bare name exists in Mathlib): collapse
    whitespace runs and trim. -/
def normalizeText (s : String) : String := ⟨trimCh (normSpaces s.data)⟩

/-- JS `arr.join(sep)` for a general string separator. -/
def joinWith (sep : String) : List String → String
  | [] => ""
  | [s] => s
  | s :: rest => s ++ sep ++ joinWith sep rest

/-- JS `s.split(' ')` (the word split of `truncateWords`). -/
def splitSpace (s : String) : List String :=
  (charSplit ' ' s.data).map (fun cs => (⟨cs⟩ : String))

/-- Model of `truncateWords`: bound a line to `maxWords` words, appending the
    ellipsis character when truncation happens. -/
def truncateWords (text : String) (maxWords : Nat) : String :=
  let words := splitSpace (normalizeText text)
  if words.length ≤ maxWords then joinWith " " words
  else joinWith " " (words.take maxWords) ++ "…"

/-- Lower-cased pattern of the first `stripMetadata` regex. -/
def vnPat : List Char := "voice note transcription".data

/-- Helper for the lazy `.*?:` tail of the first `stripMetadata` regex: the
    remainder after the first colon, provided no newline comes before it (the
    JS dot does not match newlines). -/
def afterColon : List Char → Option (List Char)
  | [] => none
  | c :: rest => if c = ':' then some rest else if c = '\n' then none else afterColon rest

/-- Model of `text.replace(/voice note transcription.*?:/gi, '')`, scanning
    with a character-count fuel (the fuel is the length of the input, which
    strictly bounds the number of scan steps). -/
def stripVN : Nat → List Char → List Char
  | 0, l => l
  | _ + 1, [] => []
  | fuel + 1, c :: rest =>
    if lowerCh ((c :: rest).take vnPat.length) = vnPat then
      match afterColon ((c :: rest).drop vnPat.length) with
      | some r => stripVN fuel r
      | none => c :: stripVN fuel rest
    else c :: stripVN fuel rest

/-- JS word character test (the regex class backslash-w). -/
def isWordCh (c : Char) : Bool := c.isAlphanum || c = '_'

/-- Consume exactly `n` decimal digits. -/
def takeDigits : Nat → List Char → Option (List Char)
  | 0, l => some l
  | _ + 1, [] => none
  | n + 1, c :: rest => if c.isDigit then takeDigits n rest else none

/-- Consume one dot. -/
def dotThen : List Char → Option (List Char)
  | '.' :: rest => some rest
  | _ => none

/-- First successful alternative, in order (the backtracking order of a
    greedy bounded quantifier). -/
def firstSome {α β : Type} (f : α → Option β) : List α → Option β
  | [] => none
  | x :: xs => match f x with | some y => some y | none => firstSome f xs

/-- Match the date pattern `\d{1,2}\.\d{1,2}\.\d{2,4}\b` at the current
    position, returning the remainder after the match.  Greedy quantifiers
    try the longer digit count first and backtrack on failure, and the
    trailing word boundary requires the next character to be a non-word
    character (or the end). -/
def tryDateAt (l : List Char) : Option (List Char) :=
  firstSome (fun a =>
    (takeDigits a l).bind (fun l1 =>
    (dotThen l1).bind (fun l2 =>
    firstSome (fun b =>
      (takeDigits b l2).bind (fun l3 =>
      (dotThen l3).bind (fun l4 =>
      firstSome (fun c =>
        (takeDigits c l4).bind (fun l5 =>
        if l5.head?.elim true (fun d => !isWordCh d) then some l5 else none))
        [4, 3, 2])))
      [2, 1])))
    [2, 1]

/-- Model of `text.replace(/\b\d{1,2}\.\d{1,2}\.\d{2,4}\b/gi, '')`: scan with
    fuel, tracking whether the previous character is a word character (for
    the leading boundary).  A match can only start on a digit preceded by a
    non-word character or the string start. -/
def stripDates : Nat → Bool → List Char → List Char
  | 0, _, l => l
  | _ + 1, _, [] => []
  | fuel + 1, prevWord, c :: rest =>
    if !prevWord && c.isDigit then
      match tryDateAt (c :: rest) with
      | some r => stripDates fuel true r
      | none => c :: stripDates fuel (isWordCh c) rest
    else c :: stripDates fuel (isWordCh c) rest

/-- Model of `stripMetadata`: remove voice-note transcription markers and
    numeric dates, then trim. -/
def stripMetadata (s : String) : String :=
  let l1 := stripVN (s.data.length + 1) s.data
  ⟨trimCh (stripDates (l1.length + 1) false l1)⟩

/-- Sentence-ending punctuation of the split regex class `[.!?]`. -/
def isPunct (c : Char) : Bool := c == '.' || c == '!' || c == '?'

/-- Split on the regex `(?<=[.!?])\s+|;|\n`, carrying the previous character
    for the lookbehind.  The input is already space-normalized (single-space
    runs, no newlines), so the whitespace-run alternative consumes exactly
    one space. -/
def splitUnitsGo (prev : Option Char) : List Char → List (List Char)
  | [] => [[]]
  | c :: rest =>
    if c == ';' || c == '\n' then [] :: splitUnitsGo (some c) rest
    else if c == ' ' && prev.elim false isPunct then [] :: splitUnitsGo (some c) rest
    else
      match splitUnitsGo (some c) rest with
      | [] => [[c]]
      | h :: t => (c :: h) :: t

/-- Model of `splitCandidates`: normalize, split into candidate units, trim
    each unit and drop empty ones. -/
def splitCandidates (text : String) : List String :=
  let cleaned := trimCh (normSpaces text.data)
  if cleaned.isEmpty then []
  else ((splitUnitsGo none cleaned).map (fun u => (⟨trimCh u⟩ : String))).filter
    (fun s => !s.data.isEmpty)

/-- The per-line tag assignment of `summarizeSelection` (the five independent
    case-insensitive regex tests, each a plain keyword alternation; the
    `no\s+complete\s+darkness` pattern reduces to a single-space keyword
    because candidate lines are space-normalized). -/
def tagsFor (line : String) : List String :=
  let lower := lowerStr line
  (if containsAny lower ["decision", "decided", "choose", "draft"] then ["decision"] else [])
  ++ (if containsAny lower ["constraint", "must", "require", "cannot", "limit", "portable", "modular", "no complete darkness"] then ["constraint"] else [])
  ++ (if containsAny lower ["risk", "concern", "drop-off", "fragile", "safety"] then ["risk"] else [])
  ++ (if containsAny lower ["open question", "question", "uncertain", "not sure", "tension", "how do", "should"] then ["question"] else [])
  ++ (if containsAny lower ["audience", "kids", "adults", "people"] then ["audience"] else [])

/-- A classified candidate unit. -/
structure Cand where
  text : String
  blockId : String
  tags : List String
deriving DecidableEq, Repr

/-- A section bullet (`Bullet`).  The source field `section` is a Lean
    keyword and is rendered here as `sec`. -/
structure Bullet where
  sec : String
  text : String
  blockIds : List String
deriving DecidableEq, Repr

/-- The deduplication key of `dedupe`. -/
def bulletKey (b : Bullet) : String := ⟨b.sec.data ++ '|' :: (lowerStr (normalizeText b.text)).data⟩

/-- Seen-set worker of `dedupe`. -/
def dedupeGo (seen : List String) : List Bullet → List Bullet
  | [] => []
  | b :: rest =>
    if seen.contains (bulletKey b) then dedupeGo seen rest
    else b :: dedupeGo (bulletKey b :: seen) rest

/-- Model of `dedupe`: drop bullets whose section-and-normalized-text key was
    already seen, preferring the earliest occurrence. -/
def dedupe (l : List Bullet) : List Bullet := dedupeGo [] l

/-- Model of `pickTop`. -/
def pickTop (lines : List Bullet) (limit : Nat) : List Bullet := lines.take limit

/-- First-occurrence deduplication worker (`Array.from(new Set(...))`). -/
def dedupFirstGo (seen : List String) : List String → List String
  | [] => []
  | x :: rest =>
    if seen.contains x then dedupFirstGo seen rest
    else x :: dedupFirstGo (x :: seen) rest

/-- Model of `Array.from(new Set(blockIds))`: deduplicate, keeping first
    occurrences in order. -/
def dedupFirst (l : List String) : List String := dedupFirstGo [] l

/-- Lexicographic comparison of character lists by code point (the JS string
    comparison used by the default `.sort()`, which on basic-plane strings
    compares the same code units). -/
def charListLe : List Char → List Char → Bool
  | [], _ => true
  | _ :: _, [] => false
  | c :: cs, d :: ds =>
    if c.toNat = d.toNat then charListLe cs ds else decide (c.toNat < d.toNat)

/-- Model of `.sort()` on an array of (deduplicated) strings: sort by the JS
    string comparison.  The keys are distinct after deduplication, so any
    comparison sort yields this unique order. -/
def sortStr (l : List String) : List String :=
  l.insertionSort (fun a b => charListLe a.data b.data = true)

/-- The normalized form of an evidence set: deduplicated and sorted. -/
def dedupSort (l : List String) : List String := sortStr (dedupFirst l)

/-- The registry key of an evidence set (`unique.join('|')`). -/
def citKey (blockIds : List String) : String := joinPipeS (dedupSort blockIds)

/-- Model of `ensureCitationNumber` (summarize) and `ensureNum` (QA): the
    insertion-ordered map is an association list to which fresh keys are
    appended; the running counter always equals the map size plus one. -/
def ensureCit (reg : List (String × Nat)) (blockIds : List String) : Nat × List (String × Nat) :=
  let key := citKey blockIds
  match reg.lookup key with
  | some n => (n, reg)
  | none => (reg.length + 1, reg ++ [(key, reg.length + 1)])

/-- Model of `Map.set` (used by the fallback path): overwrite an existing
    key, else append. -/
def mapSet (reg : List (String × Nat)) (key : String) (n : Nat) : List (String × Nat) :=
  if (reg.lookup key).isSome then reg.map (fun p => if p.1 = key then (key, n) else p)
  else reg ++ [(key, n)]

/-- The rendering state of the summary text: emitted lines, spans, the
    running character offset, and the citation registry. -/
structure RenderState where
  orderedLines : List String
  spans : List SummarySpan
  offset : Nat
  reg : List (String × Nat)
deriving Repr

/-- The fixed section order. -/
def sectionOrder : List String :=
  ["What this seems to be about", "Key tensions / open questions",
   "Secondary considerations", "Best blocks to read next"]

/-- Emit one bullet: push the bullet line, record its span with the citation
    number of its evidence set, and advance the offset past the line and the
    joining newline. -/
def renderBullet (st : RenderState) (b : Bullet) : RenderState :=
  let line : String := ⟨'•' :: ' ' :: b.text.data⟩
  let res := ensureCit st.reg b.blockIds
  ⟨st.orderedLines ++ [line],
   st.spans ++ [⟨st.offset, st.offset + lenS line, [res.1]⟩],
   st.offset + lenS line + 1,
   res.2⟩

/-- Emit one section: skip it when it has no bullets, else push the heading
    line (no span) and then its bullets, capped by `pickTop` (the cap
    comparison string does not match any actual section name, so the cap is
    always 3, exactly as in the source). -/
def renderSection (allBullets : List Bullet) (st : RenderState) (sec : String) : RenderState :=
  let lines := allBullets.filter (fun b => b.sec == sec)
  if lines.isEmpty then st
  else
    let heading : String := ⟨sec.data ++ [':']⟩
    let st1 : RenderState := ⟨st.orderedLines ++ [heading], st.spans, st.offset + lenS heading + 1, st.reg⟩
    (pickTop lines (if sec == "Key tensions / decisions in progress" then 4 else 3)).foldl renderBullet st1

/-- Render every section in order, starting from the empty state (a fresh
    registry per run). -/
def renderAll (allBullets : List Bullet) : RenderState :=
  sectionOrder.foldl (renderSection allBullets) ⟨[], [], 0, []⟩

/-- The fallback line. -/
def fallbackLine : String := "Not enough information from the selected artifacts."

/-- The fallback branch: when no line was emitted, emit the single fallback
    line, its span, and a citation keyed by the first input block id (or the
    sentinel). -/
def applyFallback (headId : Option String) (st : RenderState) : RenderState :=
  if st.orderedLines.isEmpty then
    ⟨st.orderedLines ++ [fallbackLine],
     st.spans ++ [⟨0, lenS fallbackLine, [1]⟩],
     st.offset,
     mapSet st.reg (headId.getD "unknown") 1⟩
  else st

/-- Stable sort of the citation table by citation number. -/
def sortByN (l : List Citation) : List Citation :=
  l.insertionSort (fun a b => a.n ≤ b.n)

/-- Build the citation table from the registry: split each key back into
    block ids and sort by number. -/
def buildCitations (reg : List (String × Nat)) : List Citation :=
  sortByN (reg.map (fun p => ⟨p.2, splitPipeS p.1⟩))

/-- Projection of the text blocks (the filter on the text type tag),
    keeping the fields used: id and text. -/
def textProj : Block → Option (String × String)
  | .text base t => some (base.id, t)
  | _ => none

/-- Projection of the link blocks, keeping the fields used: id, label, url. -/
def linkProj : Block → Option (String × String × String)
  | .link base url label => some (base.id, label, url)
  | _ => none

/-- Projection of the text-or-link blocks feeding the "Best blocks to read
    next" section: id and whether the block is a text block. -/
def readProj : Block → Option (String × Bool)
  | .text base _ => some (base.id, true)
  | .link base _ _ => some (base.id, false)
  | _ => none

/-- The classified candidate units of `summarizeSelection`: every text block
    contributes one unit per split candidate of its metadata-stripped text,
    then every link block contributes one `reference` unit. -/
def mkCandidates (texts : List (String × String))
    (links : List (String × String × String)) : List Cand :=
  (texts.map (fun p =>
    (splitCandidates (stripMetadata p.2)).map (fun line => (⟨line, p.1, tagsFor line⟩ : Cand)))).flatten
  ++ links.map (fun l => (⟨l.2.1 ++ " (" ++ l.2.2 ++ ")", l.1, ["reference"]⟩ : Cand))

/-- Section 1 bullets: the first two untagged-or-reference candidates. -/
def mkAbout (candidates : List Cand) : List Bullet :=
  ((candidates.filter (fun c => c.tags.isEmpty || c.tags.contains "reference")).take 2).map
    (fun c => ⟨"What this seems to be about", truncateWords c.text 20, [c.blockId]⟩)

/-- The tension candidates (tagged decision, risk, constraint or question). -/
def tensionCands (candidates : List Cand) : List Cand :=
  candidates.filter
    (fun c => c.tags.any (fun t => t == "decision" || t == "risk" || t == "constraint" || t == "question"))

/-- Section 2 bullets: at most one combined line joining the first four
    tension candidates, citing all their block ids. -/
def mkTensions (candidates : List Cand) : List Bullet :=
  let tc := tensionCands candidates
  if tc.isEmpty then []
  else [⟨"Key tensions / open questions",
         truncateWords (joinWith "; " ((tc.take 4).map Cand.text)) 28,
         (tc.take 4).map Cand.blockId⟩]

/-- Section 3 bullets: one combined audience line and one combined
    constraint line, each only when its candidate list is non-empty. -/
def mkSecondary (candidates : List Cand) : List Bullet :=
  let audience := candidates.filter (fun c => c.tags.contains "audience")
  let constraints := candidates.filter (fun c => c.tags.contains "constraint")
  (if audience.isEmpty then [] else
    [⟨"Secondary considerations",
      truncateWords (joinWith "; " (audience.map Cand.text)) 22,
      audience.map Cand.blockId⟩])
  ++ (if constraints.isEmpty then [] else
    [⟨"Secondary considerations",
      truncateWords (joinWith "; " (constraints.map Cand.text)) 22,
      constraints.map Cand.blockId⟩])

/-- Section 4 bullets: one line per retained text-or-link block. -/
def mkEvidenceEntries (reads : List (String × Bool)) : List Bullet :=
  reads.map (fun r =>
    ⟨"Best blocks to read next",
     (if r.2 then r.1 ++ ": primary notes" else r.1 ++ ": reference link"), [r.1]⟩)

/-- All deduplicated bullets, in section construction order. -/
def mkAllBullets (texts : List (String × String)) (links : List (String × String × String))
    (reads : List (String × Bool)) : List Bullet :=
  let candidates := mkCandidates texts links
  dedupe (mkAbout candidates ++ mkTensions candidates ++ mkSecondary candidates
    ++ mkEvidenceEntries reads)

/-- The rendering state after emitting all sections and, when nothing was
    emitted, the fallback line. -/
def renderedCore (texts : List (String × String)) (links : List (String × String × String))
    (reads : List (String × Bool)) (headId : Option String) : RenderState :=
  applyFallback headId (renderAll (mkAllBullets texts links reads))

/-- The body of `summarizeSelection` after the block list has been projected
    to the data it actually reads: the evidence id list, the text blocks, the
    link blocks, the first three text-or-link blocks, the block count and the
    id of the first block. -/
def summarizeCore (evidenceBlockIds : List String)
    (texts : List (String × String)) (links : List (String × String × String))
    (reads : List (String × Bool)) (nBlocks : Nat) (headId : Option String) : SummaryContent :=
  let st := renderedCore texts links reads headId
  ⟨"Summary of " ++ toString nBlocks ++ " artifact" ++ (if nBlocks == 1 then "" else "s"),
   joinNl st.orderedLines, buildCitations st.reg, st.spans, evidenceBlockIds⟩

/-- The rendering state reached by `summarizeSelection` on a block list (its
    `orderedLines` are exactly the emitted lines of the summary text). -/
def renderedState (blocks : List Block) : RenderState :=
  renderedCore (blocks.filterMap textProj) (blocks.filterMap linkProj)
    ((blocks.filterMap readProj).take 3) ((blocks.head?).map Block.id)

/-- Model of `summarizeSelection` (the spans-and-citations variant): project
    the block list to the data the body reads and run the body. -/
def summarizeSelection (blocks : List Block) : SummaryContent :=
  summarizeCore (blocks.map Block.id) (blocks.filterMap textProj)
    (blocks.filterMap linkProj) ((blocks.filterMap readProj).take 3)
    blocks.length ((blocks.head?).map Block.id)

/- ===== The QA responder (generateQaAnswer, src/src/components/Canvas.tsx) ===== -/

/-- The result record of `generateQaAnswer`. -/
structure QaResult where
  answer : String
  citations : List Citation
deriving DecidableEq, Repr

/-- One reconstructed summary line with its citation numbers and in-scope
    evidence block ids. -/
structure LineEntry where
  line : String
  citationNs : List Nat
  blockIds : List String
deriving DecidableEq, Repr

/-- One pending answer line with its evidence block ids. -/
structure AnswerEntry where
  text : String
  blockIds : List String
deriving DecidableEq, Repr

/-- Scope membership (`scopeSet.has(id)`). -/
def inScope (scopeIds : List String) (id : String) : Bool := scopeIds.contains id

/-- The scope-filtered citation lookup: `citationMap.get(n) ?? []` where the
    map was filled with `c.blockIds.filter(id => scopeSet.has(id))`.  Later
    `Map.set` calls overwrite earlier ones, so the lookup finds the last
    entry with the given number. -/
def lookupCitation (scopeIds : List String) (table : List Citation) (n : Nat) : List String :=
  match (table.reverse.find? (fun c => c.n == n)) with
  | some c => c.blockIds.filter (inScope scopeIds)
  | none => []

/-- Reconstruct the line entries: walk the split lines, tracking the running
    character offset, and attach the citation numbers of every span that
    overlaps the line interval under the test
    `!(s.end < start || s.start > end)`. -/
def mkLineEntries (scopeIds : List String) (spans : List SummarySpan)
    (table : List Citation) (offset : Nat) : List String → List LineEntry
  | [] => []
  | line :: rest =>
    let start := offset
    let stop := offset + lenS line
    let matchedSpans := spans.filter (fun s => !(decide (s.stop < start) || decide (s.start > stop)))
    let citationNs := (matchedSpans.map SummarySpan.citationNs).flatten
    let blockIds := ((citationNs.map (lookupCitation scopeIds table)).flatten).filter (inScope scopeIds)
    ⟨line, citationNs, blockIds⟩ :: mkLineEntries scopeIds spans table (offset + lenS line + 1) rest

/-- Model of the `add` helper: filter the evidence ids to the scope, falling
    back to the first scope id when nothing survives. -/
def mkAnswer (scopeIds : List String) (text : String) (blockIds : List String) : AnswerEntry :=
  let ids := blockIds.filter (inScope scopeIds)
  ⟨text, if ids.isEmpty then scopeIds.take 1 else ids⟩

/-- Model of `pickByKeywords`. -/
def pickByKeywords (entries : List LineEntry) (keys : List String) : List LineEntry :=
  entries.filter (fun e => keys.any (fun k => containsStr (lowerStr e.line) k))

/-- The goal-intent phrase list. -/
def goalPhrases : List String :=
  ["main goal", "the goal", "goal", "purpose", "aim", "objective", "intended outcome",
   "success criteria", "what are we trying to do", "what is this for", "why are we doing",
   "why do this"]

/-- The keyword alternation of the goal-line filter regex. -/
def goalLineKeys : List String :=
  ["what this seems to be about", "what this file seems to be about", "goal", "purpose",
   "objective", "aim"]

/-- Strip a leading bullet marker and following whitespace
    (`line.replace(/^•\s*/, '')`). -/
def stripBullet (s : String) : String :=
  match s.data with
  | '•' :: rest => ⟨rest.dropWhile isWs⟩
  | _ => s

/-- True when the line starts with the bullet marker. -/
def startsBullet (s : String) : Bool :=
  match s.data with
  | '•' :: _ => true
  | _ => false

/-- The intent dispatch of `generateQaAnswer`: produce the pending answer
    lines for the (already normalized) question. -/
def qaAnswers (normQuestion : String) (scopeIds : List String)
    (lineEntries : List LineEntry) : List AnswerEntry :=
  if goalPhrases.any (fun p => containsStr normQuestion p) then
    let goalLines := lineEntries.filter (fun e => containsAny (lowerStr e.line) goalLineKeys)
    if goalLines.isEmpty then
      [mkAnswer scopeIds "The main goal is not stated explicitly in the selected blocks."
        (scopeIds.take 2)]
    else (goalLines.take 2).map (fun e => mkAnswer scopeIds e.line e.blockIds)
  else if seqMatch normQuestion "what" "about" || containsAny normQuestion ["core idea", "orientation", "one sentence"] then
    let about := pickByKeywords lineEntries ["what this seems to be about"]
    let picked := if about.isEmpty then lineEntries.take 2 else about.take 2
    picked.map (fun e => mkAnswer scopeIds e.line e.blockIds)
  else if containsAny normQuestion ["decision", "decisions", "postponed", "avoided", "care"] then
    let dec := pickByKeywords lineEntries ["decision", "tension"]
    if dec.isEmpty then [mkAnswer scopeIds "Not enough decision signals in this scope." (scopeIds.take 2)]
    else (dec.take 4).map (fun e => mkAnswer scopeIds e.line e.blockIds)
  else if containsAny normQuestion ["constraint", "assumption", "conflict"] then
    let cons := pickByKeywords lineEntries ["constraint", "assumption"]
    if cons.isEmpty then [mkAnswer scopeIds "No explicit constraints found in this scope." (scopeIds.take 2)]
    else (cons.take 4).map (fun e => mkAnswer scopeIds e.line e.blockIds)
  else if seqMatch normQuestion "where" "start" || containsStr normQuestion "which block" || seqMatch normQuestion "minimum" "read" then
    let refs := pickByKeywords lineEntries ["best blocks", "read next"]
    let chosen := if refs.isEmpty then lineEntries.take 3 else refs
    (chosen.take 3).map (fun e => mkAnswer scopeIds e.line e.blockIds)
  else if containsAny normQuestion ["missing", "underspecified", "gap", "conflict"] then
    let gaps := pickByKeywords lineEntries ["open questions", "gaps", "underspecified", "fragile", "risky"]
    if gaps.isEmpty then [mkAnswer scopeIds "Gaps are not clearly stated in this scope." (scopeIds.take 2)]
    else (gaps.take 3).map (fun e => mkAnswer scopeIds e.line e.blockIds)
  else if containsAny normQuestion ["shorten", "condense"] then
    ((lineEntries.filter (fun e => startsBullet e.line)).take 3).map
      (fun e => mkAnswer scopeIds (stripBullet e.line) e.blockIds)
  else if containsAny normQuestion ["expand", "rephrase", "checklist"] then
    ((lineEntries.filter (fun e => startsBullet e.line)).take 4).map
      (fun e => mkAnswer scopeIds (stripBullet e.line) e.blockIds)
  else
    [mkAnswer scopeIds
      "I can help with summarizing, extracting, refocusing, navigating, or identifying gaps in this file."
      (scopeIds.take 1)]

/-- Fold the pending answers through a fresh registry, producing the bullet
    lines with bracketed citation numbers and the final registry. -/
def numberAnswers (reg : List (String × Nat)) : List AnswerEntry → List String × List (String × Nat)
  | [] => ([], reg)
  | a :: rest =>
    let res := ensureCit reg a.blockIds
    let tail := numberAnswers res.2 rest
    ((("• " ++ a.text ++ " [" ++ toString res.1 ++ "]") : String) :: tail.1, tail.2)

/-- Build the answer citation table: each registry key is split back into
    block ids, except that the empty key yields no ids
    (`key ? key.split('|') : []`). -/
def qaCitations (reg : List (String × Nat)) : List Citation :=
  reg.map (fun p => ⟨p.2, if p.1 == "" then [] else splitPipeS p.1⟩)

/-- Model of `generateQaAnswer`: normalize the question, reconstruct the
    line-to-citation mapping restricted to the scope, dispatch on question
    intent, then renumber the selected lines through a fresh citation
    registry. -/
def generateQaAnswer (question : String) (scopeIds : List String) (summaryText : String)
    (spans : Option (List SummarySpan)) (summaryCitations : Option (List Citation)) : QaResult :=
  let normQuestion := lowerStr (trimStr question)
  if normQuestion.data.isEmpty then ⟨"", []⟩
  else
    let lineEntries := mkLineEntries scopeIds (spans.getD []) (summaryCitations.getD []) 0
      (splitNl summaryText)
    let answers := qaAnswers normQuestion scopeIds lineEntries
    if answers.isEmpty then
      ⟨"Not enough information in the current scope to answer.", [⟨1, scopeIds.take 2⟩]⟩
    else
      let numbered := numberAnswers [] answers
      ⟨joinNl numbered.1, qaCitations numbered.2⟩

/- ===== Persistence (loadState, src/src/state/persistence.ts) ===== -/

/-- A parsed JSON value (the possible results of `JSON.parse`).  Numbers are
    modelled as integers, which covers the schema version check. -/
inductive Json where
  | null
  | bool (b : Bool)
  | num (n : Int)
  | str (s : String)
  | arr (xs : List Json)
  | obj (fields : List (String × Json))
deriving Repr

/-- JS property access `value.field`: a field of an object, `undefined`
    (here `none`) for a missing field or a non-object. -/
def getField (j : Json) (name : String) : Option Json :=
  match j with
  | .obj fields => (fields.find? (fun p => p.1 == name)).map Prod.snd
  | _ => none

/-- JS truthiness of a parsed JSON value (the `!parsed` test). -/
def isTruthy : Json → Bool
  | .null => false
  | .bool b => b
  | .num n => n != 0
  | .str s => !s.data.isEmpty
  | .arr _ => true
  | .obj _ => true

/-- The stored schema version constant. -/
def SCHEMA_VERSION : Int := 1

/-- Model of `loadState`.  The input stands for the stored snapshot string
    after `JSON.parse`: `none` when nothing is stored under the key, and an
    `Except` capturing either a parse error (which the source catches) or
    the parsed value.  The source then returns `null` unless the value is
    truthy, its `schemaVersion` field is exactly the current version, and its
    `blocks` field is an array — whose raw elements it returns unchecked
    (the `as Block[]` cast does not inspect them). -/
def loadState (stored : Option (Except String Json)) : Option (List Json) :=
  match stored with
  | none => none
  | some (.error _) => none
  | some (.ok parsed) =>
    if !isTruthy parsed then none
    else match getField parsed "schemaVersion" with
      | some (.num v) =>
        if v != SCHEMA_VERSION then none
        else match getField parsed "blocks" with
          | some (.arr xs) => some xs
          | _ => none
      | _ => none

/-- A necessary well-formedness condition for a stored block: it is an
    object with a string `id` and one of the four block type tags.  Any
    reasonable reading of "well-formed block list" implies this predicate. -/
def isBlockJson (j : Json) : Bool :=
  match getField j "id", getField j "type" with
  | some (.str _), some (.str t) =>
    t == "text" || t == "image" || t == "link" || t == "summary"
  | _, _ => false

/- ===== One registry run (shared by summarize and the QA responder) ===== -/

/-- One step of a registry run: record the assigned number, keep the updated
    registry. -/
def assignStep (acc : List Nat × List (String × Nat)) (q : List String) :
    List Nat × List (String × Nat) :=
  let res := ensureCit acc.2 q
  (acc.1 ++ [res.1], res.2)

/-- The citation numbers assigned, in order, to the evidence-set queries of
    one run (one summarize call or one QA call), starting from the fresh
    empty registry — the behaviour of `ensureCitationNumber` / `ensureNum`
    over one run. -/
def assignNumbers (queries : List (List String)) : List Nat :=
  (queries.foldl assignStep ([], [])).1

/-- The registry at the end of one run. -/
def finalReg (queries : List (List String)) : List (String × Nat) :=
  (queries.foldl assignStep ([], [])).2

/- ===== Projections of the content key (proof helpers for the
   dependence-only-on-content claim) ===== -/

/-- The id stored in a content key. -/
def keyId : BlockKey → String
  | .text i _ => i
  | .image i => i
  | .link i _ _ => i
  | .summary i => i

/-- The text projection factored through the content key. -/
def textProjK : BlockKey → Option (String × String)
  | .text i t => some (i, t)
  | _ => none

/-- The link projection factored through the content key. -/
def linkProjK : BlockKey → Option (String × String × String)
  | .link i url label => some (i, label, url)
  | _ => none

/-- The read projection factored through the content key. -/
def readProjK : BlockKey → Option (String × Bool)
  | .text i _ => some (i, true)
  | .link i _ _ => some (i, false)
  | _ => none

/- ===== Concrete inputs used by the scenario claims, counterexamples and
   witnesses ===== -/

/-- A block base at an arbitrary position and size. -/
def mkBase (i : String) : BlockBase := ⟨i, 0, 0, 100, none, "2024-01-01", "2024-01-01"⟩

/-- Scenario block T1. -/
def blockT1 : Block := .text (mkBase "T1") "Decision draft: ship the list view first."

/-- Scenario block T2. -/
def blockT2 : Block := .text (mkBase "T2") "Open question: how do we handle empty states?"

/-- Scenario block L1. -/
def blockL1 : Block := .link (mkBase "L1") "https://x" "spec"

/-- The scenario input list. -/
def scenarioBlocks : List Block := [blockT1, blockT2, blockL1]

/-- The scenario Summary. -/
def scenarioSummary : SummaryContent := summarizeSelection scenarioBlocks

/-- The scenario scope (all three ids). -/
def scenarioScope : List String := ["T1", "T2", "L1"]

/-- The scenario QA exchange about decisions. -/
def scenarioQa : QaResult :=
  generateQaAnswer "what decisions have been made?" scenarioScope scenarioSummary.summaryText
    (some scenarioSummary.spans) (some scenarioSummary.citations)

/-- An image block with one source. -/
def imageOnlyA : Block := .image (mkBase "IMG-1") "https://img/a.png" none

/-- The same image block with a different source and aspect. -/
def imageOnlyB : Block := .image (mkBase "IMG-1") "https://img/b.png" (some 1)

/-- A one-word risk note (its summary opens with a heading line). -/
def riskBlock : Block := .text (mkBase "T-9") "risk"

/-- A stored snapshot with the current schema version and a blocks array
    whose single element is a bare number, not a block object. -/
def versionedSnap : Json := .obj [("schemaVersion", .num 1), ("blocks", .arr [.num 42])]

/- ===== Lemmas: contains, split and join ===== -/

theorem contains_iff_str (l : List String) (a : String) : l.contains a = true ↔ a ∈ l := by
  simp [List.contains, List.elem_iff]

theorem hasChar_false_iff (s : String) (c : Char) : hasChar s c = false ↔ c ∉ s.data := by
  simp [hasChar, List.contains, List.elem_iff]

theorem charSplit_no_sep (sep : Char) (l : List Char) (h : sep ∉ l) :
    charSplit sep l = [l] := by
  induction l with
  | nil => rfl
  | cons c rest ih =>
    have hc : ¬ c = sep := fun e => h (e ▸ List.mem_cons_self c rest)
    have hr : sep ∉ rest := fun m => h (List.mem_cons_of_mem c m)
    simp [charSplit, hc, ih hr]

theorem charSplit_append_sep (sep : Char) (a r : List Char) (ha : sep ∉ a) :
    charSplit sep (a ++ sep :: r) = a :: charSplit sep r := by
  induction a with
  | nil => simp [charSplit]
  | cons c rest ih =>
    have hc : ¬ c = sep := fun e => ha (e ▸ List.mem_cons_self c rest)
    have hr : sep ∉ rest := fun m => ha (List.mem_cons_of_mem c m)
    simp [charSplit, hc, ih hr]

theorem charSplit_charJoin (sep : Char) (ls : List (List Char)) (hne : ls ≠ [])
    (hfree : ∀ l ∈ ls, sep ∉ l) : charSplit sep (charJoin sep ls) = ls := by
  induction ls with
  | nil => exact absurd rfl hne
  | cons a rest ih =>
    cases rest with
    | nil => simpa [charJoin] using charSplit_no_sep sep a (hfree a (by simp))
    | cons b t =>
      have hj : charJoin sep (a :: b :: t) = a ++ sep :: charJoin sep (b :: t) := rfl
      rw [hj, charSplit_append_sep sep a _ (hfree a (by simp)),
        ih (by simp) (fun l hl => hfree l (List.mem_cons_of_mem a hl))]

theorem splitPipeS_joinPipeS (l : List String) (hne : l ≠ [])
    (hfree : ∀ s ∈ l, hasChar s '|' = false) : splitPipeS (joinPipeS l) = l := by
  unfold splitPipeS joinPipeS
  rw [show (String.mk (charJoin '|' (l.map String.data))).data
      = charJoin '|' (l.map String.data) from rfl]
  rw [charSplit_charJoin '|' (l.map String.data) (by simpa using hne)
    (by
      intro cs hcs
      obtain ⟨s, hs, rfl⟩ := List.mem_map.mp hcs
      exact (hasChar_false_iff s '|').mp (hfree s hs))]
  simp [List.map_map, Function.comp_def]

/- ===== Lemmas: deduplication and sorting ===== -/

theorem mem_dedupFirstGo (seen l : List String) (a : String) :
    a ∈ dedupFirstGo seen l ↔ a ∈ l ∧ a ∉ seen := by
  induction l generalizing seen with
  | nil => simp [dedupFirstGo]
  | cons x rest ih =>
    by_cases h : x ∈ seen
    · have hc : seen.contains x = true := (contains_iff_str seen x).mpr h
      rw [dedupFirstGo, hc]
      simp only [if_true, ih, List.mem_cons]
      constructor
      · rintro ⟨h1, h2⟩; exact ⟨Or.inr h1, h2⟩
      · rintro ⟨h1 | h1, h2⟩
        · exact absurd (h1 ▸ h) h2
        · exact ⟨h1, h2⟩
    · have hc : seen.contains x = false :=
        Bool.eq_false_iff.mpr (fun e => h ((contains_iff_str seen x).mp e))
      rw [dedupFirstGo, hc]
      simp only [Bool.false_eq_true, if_false, List.mem_cons, ih]
      constructor
      · rintro (rfl | ⟨h1, h2⟩)
        · exact ⟨Or.inl rfl, h⟩
        · exact ⟨Or.inr h1, fun hs => h2 (Or.inr hs)⟩
      · rintro ⟨rfl | h1, h2⟩
        · exact Or.inl rfl
        · by_cases hax : a = x
          · exact Or.inl hax
          · refine Or.inr ⟨h1, fun hs => ?_⟩
            rcases hs with e | e
            · exact hax e
            · exact h2 e

theorem nodup_dedupFirstGo (seen l : List String) : (dedupFirstGo seen l).Nodup := by
  induction l generalizing seen with
  | nil => simp [dedupFirstGo]
  | cons x rest ih =>
    by_cases h : x ∈ seen
    · rw [dedupFirstGo, (contains_iff_str seen x).mpr h]
      simpa using ih seen
    · have hc : seen.contains x = false :=
        Bool.eq_false_iff.mpr (fun e => h ((contains_iff_str seen x).mp e))
      rw [dedupFirstGo, hc]
      simp only [Bool.false_eq_true, if_false, List.nodup_cons]
      refine ⟨fun hmem => ?_, ih (x :: seen)⟩
      exact ((mem_dedupFirstGo (x :: seen) rest x).mp hmem).2 (List.mem_cons_self x seen)

theorem mem_dedupSort (l : List String) (a : String) : a ∈ dedupSort l ↔ a ∈ l := by
  unfold dedupSort sortStr dedupFirst
  rw [(List.perm_insertionSort _ (dedupFirstGo [] l)).mem_iff, mem_dedupFirstGo]
  simp

theorem dedupSort_subset (l : List String) : ∀ a ∈ dedupSort l, a ∈ l :=
  fun a ha => (mem_dedupSort l a).mp ha

theorem nodup_dedupSort (l : List String) : (dedupSort l).Nodup :=
  ((List.perm_insertionSort _ (dedupFirstGo [] l)).nodup_iff).mpr (nodup_dedupFirstGo [] l)

theorem dedupSort_ne_nil (l : List String) (h : l ≠ []) : dedupSort l ≠ [] := by
  cases l with
  | nil => exact absurd rfl h
  | cons x r =>
    intro e
    have hx : x ∈ dedupSort (x :: r) := (mem_dedupSort _ x).mpr (List.mem_cons_self x r)
    rw [e] at hx
    exact (List.not_mem_nil x) hx

theorem splitPipeS_citKey (ids : List String) (hne : ids ≠ [])
    (hfree : ∀ id ∈ ids, hasChar id '|' = false) :
    splitPipeS (citKey ids) = dedupSort ids := by
  unfold citKey
  exact splitPipeS_joinPipeS _ (dedupSort_ne_nil _ hne)
    (fun s hs => hfree s (dedupSort_subset _ s hs))

theorem splitPipeS_citKey_sub (ids : List String) (hne : ids ≠ [])
    (hfree : ∀ id ∈ ids, hasChar id '|' = false) :
    ∀ a ∈ splitPipeS (citKey ids), a ∈ ids := by
  rw [splitPipeS_citKey ids hne hfree]
  exact dedupSort_subset ids

theorem joinPipeS_ne_empty (l : List String) (hne : l ≠ []) (h : ∀ s ∈ l, s ≠ "") :
    joinPipeS l ≠ "" := by
  cases l with
  | nil => exact absurd rfl hne
  | cons a rest =>
    have ha : a.data ≠ [] := by
      intro e
      exact h a (List.mem_cons_self a rest) (by cases a; simp_all)
    cases rest with
    | nil =>
      simp only [joinPipeS, charJoin]
      intro e
      exact ha (congrArg String.data e)
    | cons b t =>
      simp only [joinPipeS, charJoin]
      intro e
      have : a.data ++ '|' :: charJoin '|' ((b :: t).map String.data) = [] :=
        congrArg String.data e
      rcases List.append_eq_nil.mp this with ⟨_, h2⟩
      exact List.cons_ne_nil _ _ h2

/- ===== Lemmas: rendering offsets and spans ===== -/

/-- The total joined length contribution of a line list (each line plus one
    newline). -/
def sumLens (ls : List String) : Nat := (ls.map (fun l => lenS l + 1)).sum

/-- The start offset of line `k` inside the newline-join of `ls`. -/
def lineStart (ls : List String) (k : Nat) : Nat :=
  ((ls.take k).map (fun l => lenS l + 1)).sum

/-- A span is exactly the extent of one line of `ls`. -/
def spanOk (ls : List String) (s : SummarySpan) : Prop :=
  ∃ k, ∃ h : k < ls.length,
    s.start = lineStart ls k ∧ s.stop = s.start + lenS (ls.get ⟨k, h⟩)

theorem lineStart_append (ls more : List String) (k : Nat) (h : k ≤ ls.length) :
    lineStart (ls ++ more) k = lineStart ls k := by
  unfold lineStart
  rw [List.take_append_of_le_length h]

theorem lineStart_last (ls : List String) (more : List String) :
    lineStart (ls ++ more) ls.length = sumLens ls := by
  unfold lineStart sumLens
  rw [List.take_append_of_le_length (le_refl ls.length), List.take_length]

theorem sumLens_append_one (ls : List String) (l : String) :
    sumLens (ls ++ [l]) = sumLens ls + (lenS l + 1) := by
  unfold sumLens
  rw [List.map_append, List.sum_append]
  simp

theorem spanOk_append (ls more : List String) (s : SummarySpan) (h : spanOk ls s) :
    spanOk (ls ++ more) s := by
  obtain ⟨k, hk, h1, h2⟩ := h
  have hk2 : k < (ls ++ more).length := by
    rw [List.length_append]; omega
  refine ⟨k, hk2, ?_, ?_⟩
  · rw [lineStart_append ls more k (le_of_lt hk)]; exact h1
  · rw [List.get_append k hk]; exact h2

theorem spanOk_nil (s : SummarySpan) (h : spanOk [] s) : False := by
  obtain ⟨k, hk, _⟩ := h
  simp at hk

theorem spans_nil_of_all_ok (spans : List SummarySpan)
    (h : ∀ s ∈ spans, spanOk [] s) : spans = [] := by
  cases spans with
  | nil => rfl
  | cons s rest => exact absurd (h s (List.mem_cons_self s rest)) (fun hs => spanOk_nil s hs)

/- ===== Lemmas: the citation registry ===== -/

theorem lookup_mem {reg : List (String × Nat)} {key : String} {n : Nat}
    (h : reg.lookup key = some n) : (key, n) ∈ reg := by
  induction reg with
  | nil => simp [List.lookup] at h
  | cons p rest ih =>
    rw [show p = (p.1, p.2) from rfl, List.lookup_cons] at h
    by_cases he : key = p.1
    · simp [he] at h
      simp [h, he]
      left
      cases p
      simp at h ⊢
      exact h.symm
    · have : (key == p.1) = false := by simp [he]
      rw [this] at h
      exact List.mem_cons_of_mem _ (ih h)

theorem ensureCit_snd (reg : List (String × Nat)) (ids : List String) :
    (ensureCit reg ids).2 = reg ∨
      (ensureCit reg ids).2 = reg ++ [(citKey ids, reg.length + 1)] := by
  unfold ensureCit
  cases h : reg.lookup (citKey ids) with
  | none => right; simp [h]
  | some n => left; simp [h]

theorem ensureCit_fst_mem (reg : List (String × Nat)) (ids : List String) :
    (ensureCit reg ids).1 ∈ (ensureCit reg ids).2.map Prod.snd := by
  unfold ensureCit
  cases h : reg.lookup (citKey ids) with
  | none => simp [h]
  | some n =>
    simp only [h]
    exact List.mem_map.mpr ⟨(citKey ids, n), lookup_mem h, rfl⟩

theorem ensureCit_vals (reg : List (String × Nat)) (ids : List String)
    (h : reg.map Prod.snd = List.range' 1 reg.length) :
    (ensureCit reg ids).2.map Prod.snd = List.range' 1 (ensureCit reg ids).2.length := by
  rcases ensureCit_snd reg ids with e | e
  · rw [e]; exact h
  · rw [e, List.map_append, h, List.length_append]
    simp [List.range'_concat]
    omega

theorem ensureCit_len_le (reg : List (String × Nat)) (ids : List String) :
    (ensureCit reg ids).2.length ≤ reg.length + 1 := by
  rcases ensureCit_snd reg ids with e | e <;> simp [e]

theorem ensureCit_vals_mono (reg : List (String × Nat)) (ids : List String) (n : Nat)
    (h : n ∈ reg.map Prod.snd) : n ∈ (ensureCit reg ids).2.map Prod.snd := by
  rcases ensureCit_snd reg ids with e | e <;> simp [e] at h ⊢
  · exact h
  · left; exact h

/- ===== Lemmas: the rendering invariant ===== -/

/-- Invariant maintained while rendering: the offset tracks the joined
    length, every span delimits an emitted line exactly, every span citation
    number is a registry value, the registry values are 1, 2, ... in order,
    and the registry is no larger than the emitted line count. -/
structure RInv (st : RenderState) : Prop where
  offset_eq : st.offset = sumLens st.orderedLines
  spans_ok : ∀ s ∈ st.spans, spanOk st.orderedLines s
  spans_ns : ∀ s ∈ st.spans, ∀ n ∈ s.citationNs, n ∈ st.reg.map Prod.snd
  reg_vals : st.reg.map Prod.snd = List.range' 1 st.reg.length
  reg_le : st.reg.length ≤ st.orderedLines.length

theorem get_append_last (ls : List String) (l : String)
    (hk : ls.length < (ls ++ [l]).length) : (ls ++ [l]).get ⟨ls.length, hk⟩ = l := by
  simp

theorem rinv_renderBullet (st : RenderState) (b : Bullet) (h : RInv st) :
    RInv (renderBullet st b) := by
  obtain ⟨h1, h2, h3, h4, h5⟩ := h
  have hline : (renderBullet st b).orderedLines
      = st.orderedLines ++ [(⟨'•' :: ' ' :: b.text.data⟩ : String)] := rfl
  have hspans : (renderBullet st b).spans
      = st.spans ++ [⟨st.offset, st.offset + lenS ⟨'•' :: ' ' :: b.text.data⟩,
          [(ensureCit st.reg b.blockIds).1]⟩] := rfl
  have hoff : (renderBullet st b).offset
      = st.offset + lenS ⟨'•' :: ' ' :: b.text.data⟩ + 1 := rfl
  have hreg : (renderBullet st b).reg = (ensureCit st.reg b.blockIds).2 := rfl
  refine ⟨?_, ?_, ?_, ?_, ?_⟩
  · rw [hoff, hline, sumLens_append_one, h1]
    omega
  · rw [hspans, hline]
    intro s hs
    rcases List.mem_append.mp hs with hold | hnew
    · exact spanOk_append _ _ s (h2 s hold)
    · rcases List.mem_singleton.mp hnew with rfl
      have hk : st.orderedLines.length
          < (st.orderedLines ++ [(⟨'•' :: ' ' :: b.text.data⟩ : String)]).length := by simp
      refine ⟨st.orderedLines.length, hk, ?_, ?_⟩
      · show st.offset = lineStart _ st.orderedLines.length
        rw [lineStart_last, h1]
      · show st.offset + lenS _ = st.offset + lenS _
        rw [get_append_last]
  · rw [hspans, hreg]
    intro s hs n hn
    rcases List.mem_append.mp hs with hold | hnew
    · exact ensureCit_vals_mono st.reg b.blockIds n (h3 s hold n hn)
    · rcases List.mem_singleton.mp hnew with rfl
      rcases List.mem_singleton.mp hn with rfl
      exact ensureCit_fst_mem st.reg b.blockIds
  · rw [hreg]
    exact ensureCit_vals st.reg b.blockIds h4
  · rw [hreg, hline]
    calc (ensureCit st.reg b.blockIds).2.length
        ≤ st.reg.length + 1 := ensureCit_len_le st.reg b.blockIds
      _ ≤ st.orderedLines.length + 1 := by omega
      _ = (st.orderedLines ++ [(⟨'•' :: ' ' :: b.text.data⟩ : String)]).length := by simp

theorem rinv_foldl_bullets (bs : List Bullet) (st : RenderState) (h : RInv st) :
    RInv (bs.foldl renderBullet st) := by
  induction bs generalizing st with
  | nil => exact h
  | cons b rest ih => exact ih _ (rinv_renderBullet st b h)

theorem rinv_renderSection (allB : List Bullet) (st : RenderState) (sec : String)
    (h : RInv st) : RInv (renderSection allB st sec) := by
  unfold renderSection
  cases hc : (allB.filter (fun b => b.sec == sec)).isEmpty with
  | true => simpa [hc] using h
  | false =>
    simp only [hc, Bool.false_eq_true, if_false]
    apply rinv_foldl_bullets
    obtain ⟨h1, h2, h3, h4, h5⟩ := h
    refine ⟨?_, ?_, h3, h4, ?_⟩
    · show st.offset + lenS _ + 1 = sumLens (st.orderedLines ++ [_])
      rw [sumLens_append_one, h1]
      omega
    · intro s hs
      exact spanOk_append _ _ s (h2 s hs)
    · calc st.reg.length ≤ st.orderedLines.length := h5
        _ ≤ (st.orderedLines ++ [(⟨sec.data ++ [':']⟩ : String)]).length := by simp

theorem rinv_renderAll (allB : List Bullet) : RInv (renderAll allB) := by
  unfold renderAll
  have main : ∀ (secs : List String) (st : RenderState), RInv st →
      RInv (secs.foldl (renderSection allB) st) := by
    intro secs
    induction secs with
    | nil => intro st h; exact h
    | cons s rest ih => intro st h; exact ih _ (rinv_renderSection allB st s h)
  exact main sectionOrder _ ⟨by simp [sumLens], by simp, by simp, rfl, by simp⟩

/-- The facts surviving the fallback adjustment. -/
structure FInv (st : RenderState) : Prop where
  spans_ok : ∀ s ∈ st.spans, spanOk st.orderedLines s
  spans_ns : ∀ s ∈ st.spans, ∀ n ∈ s.citationNs, n ∈ st.reg.map Prod.snd
  reg_vals : st.reg.map Prod.snd = List.range' 1 st.reg.length

theorem finv_applyFallback (headId : Option String) (st : RenderState) (h : RInv st) :
    FInv (applyFallback headId st) := by
  obtain ⟨h1, h2, h3, h4, h5⟩ := h
  unfold applyFallback
  cases he : st.orderedLines.isEmpty with
  | false => exact ⟨by simpa [he] using h2, by simpa [he] using h3, by simpa [he] using h4⟩
  | true =>
    have hol : st.orderedLines = [] := List.isEmpty_iff.mp he
    have hsp : st.spans = [] := by
      apply spans_nil_of_all_ok
      intro s hs
      rw [← hol]
      exact h2 s hs
    have hreg : st.reg = [] := by
      have : st.reg.length = 0 := by
        rw [hol] at h5
        simpa using h5
      exact List.eq_nil_of_length_eq_zero this
    simp only [he, if_true, hol, hsp, hreg]
    have hms : mapSet [] (headId.getD "unknown") 1 = [(headId.getD "unknown", 1)] := by
      simp [mapSet, List.lookup]
    refine ⟨?_, ?_, ?_⟩
    · intro s hs
      simp only [List.nil_append, List.mem_singleton] at hs
      subst hs
      refine ⟨0, by simp, ?_, ?_⟩
      · simp [lineStart]
      · simp
    · intro s hs n hn
      simp only [List.nil_append, List.mem_singleton] at hs
      subst hs
      rcases List.mem_singleton.mp hn with rfl
      rw [hms]
      simp
    · rw [hms]
      simp [List.range']

theorem finv_renderedCore (texts : List (String × String))
    (links : List (String × String × String)) (reads : List (String × Bool))
    (headId : Option String) : FInv (renderedCore texts links reads headId) :=
  finv_applyFallback headId _ (rinv_renderAll _)

/- ===== Lemmas: registry keys stay inside the evidence ===== -/

/-- Every registry key splits back into ids inside `evidence`. -/
def RegSub (evidence : List String) (reg : List (String × Nat)) : Prop :=
  ∀ p ∈ reg, ∀ id ∈ splitPipeS p.1, id ∈ evidence

theorem splitPipeS_single (s : String) (h : hasChar s '|' = false) : splitPipeS s = [s] := by
  unfold splitPipeS
  rw [charSplit_no_sep '|' s.data ((hasChar_false_iff s '|').mp h)]
  rfl

theorem regSub_ensureCit (evidence : List String) (reg : List (String × Nat))
    (ids : List String) (hreg : RegSub evidence reg) (hne : ids ≠ [])
    (hsub : ∀ id ∈ ids, id ∈ evidence)
    (hfree : ∀ id ∈ evidence, hasChar id '|' = false) :
    RegSub evidence (ensureCit reg ids).2 := by
  rcases ensureCit_snd reg ids with e | e <;> rw [e]
  · exact hreg
  · intro p hp
    rcases List.mem_append.mp hp with hold | hnew
    · exact hreg p hold
    · rcases List.mem_singleton.mp hnew with rfl
      intro id hid
      exact hsub id (splitPipeS_citKey_sub ids hne
        (fun i hi => hfree i (hsub i hi)) id hid)

/-- A bullet whose evidence set is non-empty and inside `evidence`. -/
def GoodB (evidence : List String) (b : Bullet) : Prop :=
  b.blockIds ≠ [] ∧ ∀ id ∈ b.blockIds, id ∈ evidence

theorem regSub_renderBullet (evidence : List String) (st : RenderState) (b : Bullet)
    (hreg : RegSub evidence st.reg) (hb : GoodB evidence b)
    (hfree : ∀ id ∈ evidence, hasChar id '|' = false) :
    RegSub evidence (renderBullet st b).reg :=
  regSub_ensureCit evidence st.reg b.blockIds hreg hb.1 hb.2 hfree

theorem regSub_foldl_bullets (evidence : List String) (bs : List Bullet) (st : RenderState)
    (hreg : RegSub evidence st.reg) (hbs : ∀ b ∈ bs, GoodB evidence b)
    (hfree : ∀ id ∈ evidence, hasChar id '|' = false) :
    RegSub evidence (bs.foldl renderBullet st).reg := by
  induction bs generalizing st with
  | nil => exact hreg
  | cons b rest ih =>
    exact ih _ (regSub_renderBullet evidence st b hreg (hbs b (List.mem_cons_self b rest)) hfree)
      (fun x hx => hbs x (List.mem_cons_of_mem b hx))

theorem regSub_renderSection (evidence : List String) (allB : List Bullet)
    (st : RenderState) (sec : String) (hreg : RegSub evidence st.reg)
    (hbs : ∀ b ∈ allB, GoodB evidence b)
    (hfree : ∀ id ∈ evidence, hasChar id '|' = false) :
    RegSub evidence (renderSection allB st sec).reg := by
  unfold renderSection
  cases hc : (allB.filter (fun b => b.sec == sec)).isEmpty with
  | true => simpa [hc] using hreg
  | false =>
    simp only [hc, Bool.false_eq_true, if_false]
    refine regSub_foldl_bullets evidence _ _ ?_ ?_ hfree
    · exact hreg
    · intro b hb
      have hbf : b ∈ allB.filter (fun x => x.sec == sec) :=
        List.mem_of_mem_take (by simpa [pickTop] using hb)
      exact hbs b (List.mem_filter.mp hbf).1

theorem regSub_renderAll (evidence : List String) (allB : List Bullet)
    (hbs : ∀ b ∈ allB, GoodB evidence b)
    (hfree : ∀ id ∈ evidence, hasChar id '|' = false) :
    RegSub evidence (renderAll allB).reg := by
  unfold renderAll
  have main : ∀ (secs : List String) (st : RenderState), RegSub evidence st.reg →
      RegSub evidence (secs.foldl (renderSection allB) st).reg := by
    intro secs
    induction secs with
    | nil => intro st h; exact h
    | cons s rest ih => intro st h; exact ih _ (regSub_renderSection evidence allB st s h hbs hfree)
  exact main sectionOrder _ (by intro p hp; simp at hp)

theorem regSub_applyFallback (evidence : List String) (headId : Option String)
    (st : RenderState) (hreg : RegSub evidence st.reg)
    (hhead : ∃ id0, headId = some id0 ∧ id0 ∈ evidence)
    (hfree : ∀ id ∈ evidence, hasChar id '|' = false) :
    RegSub evidence (applyFallback headId st).reg := by
  unfold applyFallback
  cases he : st.orderedLines.isEmpty with
  | false => simpa [he] using hreg
  | true =>
    simp only [he, if_true]
    obtain ⟨id0, rfl, hid0⟩ := hhead
    intro p hp
    unfold mapSet at hp
    by_cases hl : (st.reg.lookup ((some id0).getD "unknown")).isSome
    · simp only [hl, if_true] at hp
      rcases List.mem_map.mp hp with ⟨q, hq, rfl⟩
      by_cases hqk : q.1 = (some id0).getD "unknown"
      · simp only [hqk, if_true]
        show ∀ id ∈ splitPipeS ((some id0).getD "unknown", 1).1, id ∈ evidence
        intro id hid
        rw [show ((some id0).getD "unknown", 1).1 = id0 from rfl,
          splitPipeS_single id0 (hfree id0 hid0)] at hid
        rcases List.mem_singleton.mp hid with rfl
        exact hid0
      · simp only [hqk, if_false]
        exact hreg q hq
    · simp only [hl, if_false] at hp
      rcases List.mem_append.mp hp with hold | hnew
      · exact hreg p hold
      · rcases List.mem_singleton.mp hnew with rfl
        intro id hid
        rw [show ((some id0).getD "unknown", 1).1 = id0 from rfl,
          splitPipeS_single id0 (hfree id0 hid0)] at hid
        rcases List.mem_singleton.mp hid with rfl
        exact hid0

/- ===== Lemmas: every bullet draws on input block ids ===== -/

theorem dedupeGo_sub (seen : List String) (l : List Bullet) : ∀ b ∈ dedupeGo seen l, b ∈ l := by
  induction l generalizing seen with
  | nil => intro b hb; simp [dedupeGo] at hb
  | cons x rest ih =>
    intro b hb
    unfold dedupeGo at hb
    cases hc : seen.contains (bulletKey x) with
    | true =>
      rw [hc] at hb
      simp only [if_true] at hb
      exact List.mem_cons_of_mem x (ih seen b hb)
    | false =>
      rw [hc] at hb
      simp only [Bool.false_eq_true, if_false] at hb
      rcases List.mem_cons.mp hb with rfl | hb2
      · exact List.mem_cons_self b rest
      · exact List.mem_cons_of_mem x (ih _ b hb2)

theorem dedupe_sub (l : List Bullet) : ∀ b ∈ dedupe l, b ∈ l := dedupeGo_sub [] l

theorem mem_candidates_src (texts : List (String × String))
    (links : List (String × String × String)) :
    ∀ c ∈ mkCandidates texts links,
      c.blockId ∈ texts.map Prod.fst ∨ c.blockId ∈ links.map Prod.fst := by
  intro c hc
  unfold mkCandidates at hc
  rcases List.mem_append.mp hc with h | h
  · left
    rcases List.mem_flatten.mp h with ⟨l, hl, hcl⟩
    rcases List.mem_map.mp hl with ⟨p, hp, rfl⟩
    rcases List.mem_map.mp hcl with ⟨line, _, rfl⟩
    exact List.mem_map.mpr ⟨p, hp, rfl⟩
  · right
    rcases List.mem_map.mp h with ⟨l, hl, rfl⟩
    exact List.mem_map.mpr ⟨l, hl, rfl⟩

/-- The ids a bullet may draw on: text ids, link ids, and retained
    text-or-link ids. -/
def bulletSrc (texts : List (String × String)) (links : List (String × String × String))
    (reads : List (String × Bool)) : List String :=
  texts.map Prod.fst ++ links.map Prod.fst ++ reads.map Prod.fst

theorem src_of_texts {texts : List (String × String)} {links : List (String × String × String)}
    {reads : List (String × Bool)} {id : String} (h : id ∈ texts.map Prod.fst) :
    id ∈ bulletSrc texts links reads := by
  unfold bulletSrc
  exact List.mem_append_left _ (List.mem_append_left _ h)

theorem src_of_links {texts : List (String × String)} {links : List (String × String × String)}
    {reads : List (String × Bool)} {id : String} (h : id ∈ links.map Prod.fst) :
    id ∈ bulletSrc texts links reads := by
  unfold bulletSrc
  exact List.mem_append_left _ (List.mem_append_right _ h)

theorem src_of_reads {texts : List (String × String)} {links : List (String × String × String)}
    {reads : List (String × Bool)} {id : String} (h : id ∈ reads.map Prod.fst) :
    id ∈ bulletSrc texts links reads := by
  unfold bulletSrc
  exact List.mem_append_right _ h

theorem src_of_cand {texts : List (String × String)} {links : List (String × String × String)}
    {reads : List (String × Bool)} {c : Cand} (hc : c ∈ mkCandidates texts links) :
    c.blockId ∈ bulletSrc texts links reads := by
  rcases mem_candidates_src texts links c hc with h | h
  · exact src_of_texts h
  · exact src_of_links h

theorem take_ne_nil_of_ne_nil {α : Type} (l : List α) (n : Nat) (h : l ≠ []) :
    l.take (n + 1) ≠ [] := by
  cases l with
  | nil => exact absurd rfl h
  | cons a t => simp

theorem mkAllBullets_good (texts : List (String × String))
    (links : List (String × String × String)) (reads : List (String × Bool)) :
    ∀ b ∈ mkAllBullets texts links reads, GoodB (bulletSrc texts links reads) b := by
  intro b hb
  have hb2 := dedupe_sub _ b hb
  rcases List.mem_append.mp hb2 with h3 | hev
  · rcases List.mem_append.mp h3 with h2 | hsec
    · rcases List.mem_append.mp h2 with habout | htens
      · -- Section 1
        unfold mkAbout at habout
        rcases List.mem_map.mp habout with ⟨c, hc, rfl⟩
        have hcmem : c ∈ mkCandidates texts links :=
          (List.mem_filter.mp (List.mem_of_mem_take hc)).1
        refine ⟨by simp, ?_⟩
        intro id hid
        rcases List.mem_singleton.mp hid with rfl
        exact src_of_cand hcmem
      · -- Section 2
        simp only [mkTensions] at htens
        cases he : (tensionCands (mkCandidates texts links)).isEmpty with
        | true => rw [he] at htens; simp at htens
        | false =>
          rw [he] at htens
          simp only [Bool.false_eq_true, if_false, List.mem_singleton] at htens
          subst htens
          have hne : tensionCands (mkCandidates texts links) ≠ [] := by
            intro e; rw [e] at he; simp at he
          refine ⟨?_, ?_⟩
          · intro e
            exact take_ne_nil_of_ne_nil _ 3 hne (List.map_eq_nil_iff.mp e)
          · intro id hid
            rcases List.mem_map.mp hid with ⟨c, hc, rfl⟩
            have hcmem : c ∈ mkCandidates texts links :=
              (List.mem_filter.mp (List.mem_of_mem_take hc)).1
            exact src_of_cand hcmem
    · -- Section 3
      simp only [mkSecondary] at hsec
      rcases List.mem_append.mp hsec with ha | hcn
      · cases he : ((mkCandidates texts links).filter (fun c => c.tags.contains "audience")).isEmpty with
        | true => rw [he] at ha; simp at ha
        | false =>
          rw [he] at ha
          simp only [Bool.false_eq_true, if_false, List.mem_singleton] at ha
          subst ha
          have hne : (mkCandidates texts links).filter (fun c => c.tags.contains "audience") ≠ [] := by
            intro e; rw [e] at he; simp at he
          refine ⟨fun e => hne (List.map_eq_nil_iff.mp e), ?_⟩
          intro id hid
          rcases List.mem_map.mp hid with ⟨c, hc, rfl⟩
          exact src_of_cand (List.mem_filter.mp hc).1
      · cases he : ((mkCandidates texts links).filter (fun c => c.tags.contains "constraint")).isEmpty with
        | true => rw [he] at hcn; simp at hcn
        | false =>
          rw [he] at hcn
          simp only [Bool.false_eq_true, if_false, List.mem_singleton] at hcn
          subst hcn
          have hne : (mkCandidates texts links).filter (fun c => c.tags.contains "constraint") ≠ [] := by
            intro e; rw [e] at he; simp at he
          refine ⟨fun e => hne (List.map_eq_nil_iff.mp e), ?_⟩
          intro id hid
          rcases List.mem_map.mp hid with ⟨c, hc, rfl⟩
          exact src_of_cand (List.mem_filter.mp hc).1
  · -- Section 4
    unfold mkEvidenceEntries at hev
    rcases List.mem_map.mp hev with ⟨r, hr, rfl⟩
    refine ⟨by simp, ?_⟩
    intro id hid
    rcases List.mem_singleton.mp hid with rfl
    exact src_of_reads (List.mem_map.mpr ⟨r, hr, rfl⟩)

/- ===== Lemmas: assembly at the summarizer level ===== -/

theorem summarize_spans_eq (blocks : List Block) :
    (summarizeSelection blocks).spans = (renderedState blocks).spans := rfl

theorem summarize_citations_eq (blocks : List Block) :
    (summarizeSelection blocks).citations = buildCitations (renderedState blocks).reg := rfl

theorem summarize_text_eq (blocks : List Block) :
    (summarizeSelection blocks).summaryText = joinNl (renderedState blocks).orderedLines := rfl

theorem summarize_evidence_eq (blocks : List Block) :
    (summarizeSelection blocks).evidenceBlockIds = blocks.map Block.id := rfl

theorem bulletSrc_sub_evidence (blocks : List Block) :
    ∀ id ∈ bulletSrc (blocks.filterMap textProj) (blocks.filterMap linkProj)
      ((blocks.filterMap readProj).take 3), id ∈ blocks.map Block.id := by
  intro id hid
  unfold bulletSrc at hid
  have toEv : ∀ (b : Block), b ∈ blocks → id = Block.id b → id ∈ blocks.map Block.id :=
    fun b hb he => List.mem_map.mpr ⟨b, hb, he.symm⟩
  rcases List.mem_append.mp hid with h2 | hreads
  · rcases List.mem_append.mp h2 with htext | hlink
    · rcases List.mem_map.mp htext with ⟨p, hp, rfl⟩
      rcases List.mem_filterMap.mp hp with ⟨b, hb, hpb⟩
      cases b with
      | text base t =>
        simp only [textProj] at hpb
        cases hpb
        exact toEv _ hb rfl
      | image base src aspect => simp [textProj] at hpb
      | link base url label => simp [textProj] at hpb
      | summary base t s e st c sp => simp [textProj] at hpb
    · rcases List.mem_map.mp hlink with ⟨p, hp, rfl⟩
      rcases List.mem_filterMap.mp hp with ⟨b, hb, hpb⟩
      cases b with
      | link base url label =>
        simp only [linkProj] at hpb
        cases hpb
        exact toEv _ hb rfl
      | text base t => simp [linkProj] at hpb
      | image base src aspect => simp [linkProj] at hpb
      | summary base t s e st c sp => simp [linkProj] at hpb
  · rcases List.mem_map.mp hreads with ⟨p, hp, rfl⟩
    rcases List.mem_filterMap.mp (List.mem_of_mem_take hp) with ⟨b, hb, hpb⟩
    cases b with
    | text base t =>
      simp only [readProj] at hpb
      cases hpb
      exact toEv _ hb rfl
    | link base url label =>
      simp only [readProj] at hpb
      cases hpb
      exact toEv _ hb rfl
    | image base src aspect => simp [readProj] at hpb
    | summary base t s e st c sp => simp [readProj] at hpb

theorem regSub_renderedState (blocks : List Block) (hne : blocks ≠ [])
    (hfree : ∀ b ∈ blocks, hasChar (Block.id b) '|' = false) :
    RegSub (blocks.map Block.id) (renderedState blocks).reg := by
  have hfree2 : ∀ id ∈ blocks.map Block.id, hasChar id '|' = false := by
    intro id hid
    rcases List.mem_map.mp hid with ⟨b, hb, rfl⟩
    exact hfree b hb
  unfold renderedState renderedCore
  apply regSub_applyFallback
  · apply regSub_renderAll
    · intro b hb
      obtain ⟨g1, g2⟩ := mkAllBullets_good _ _ _ b hb
      exact ⟨g1, fun id hid => bulletSrc_sub_evidence blocks id (g2 id hid)⟩
    · exact hfree2
  · cases blocks with
    | nil => exact absurd rfl hne
    | cons b rest =>
      exact ⟨Block.id b, by simp, List.mem_map.mpr ⟨b, List.mem_cons_self b rest, rfl⟩⟩
  · exact hfree2

/- ===== Lemmas: the citation table ===== -/

theorem buildCitations_perm (reg : List (String × Nat)) :
    (buildCitations reg).Perm (reg.map (fun p => (⟨p.2, splitPipeS p.1⟩ : Citation))) :=
  List.perm_insertionSort _ _

theorem mem_buildCitations (reg : List (String × Nat)) (c : Citation)
    (hc : c ∈ buildCitations reg) : ∃ p ∈ reg, c = ⟨p.2, splitPipeS p.1⟩ := by
  have hm := (buildCitations_perm reg).mem_iff.mp hc
  rcases List.mem_map.mp hm with ⟨p, hp, he⟩
  exact ⟨p, hp, he.symm⟩

theorem buildCitations_count (reg : List (String × Nat)) (n : Nat)
    (hvals : reg.map Prod.snd = List.range' 1 reg.length) (hn : n ∈ reg.map Prod.snd) :
    (buildCitations reg).countP (fun c => c.n == n) = 1 := by
  rw [(buildCitations_perm reg).countP_eq, List.countP_map]
  have h1 : ((fun c : Citation => c.n == n) ∘ (fun p : String × Nat => (⟨p.2, splitPipeS p.1⟩ : Citation)))
      = (fun p : String × Nat => p.2 == n) := rfl
  rw [h1]
  have h2 : reg.countP (fun p => p.2 == n) = (reg.map Prod.snd).countP (fun v => v == n) := by
    rw [List.countP_map]
    rfl
  rw [h2, hvals, ← List.count_eq_countP]
  rw [hvals] at hn
  exact List.count_eq_one_of_mem (List.nodup_range' 1 reg.length) hn

/- ===== Lemmas: slicing the joined text ===== -/

theorem charJoin_drop_take (sep : Char) (ls : List (List Char)) (k : Nat)
    (h : k < ls.length) :
    ((charJoin sep ls).drop (((ls.take k).map (fun l => l.length + 1)).sum)).take
        (ls.get ⟨k, h⟩).length = ls.get ⟨k, h⟩ := by
  induction ls generalizing k with
  | nil => simp at h
  | cons a rest ih =>
    cases k with
    | zero =>
      cases rest with
      | nil => simp [charJoin]
      | cons b t =>
        show ((a ++ sep :: charJoin sep (b :: t)).drop 0).take a.length = a
        rw [List.drop_zero]
        have : a.length ≤ a.length := le_refl _
        calc (a ++ sep :: charJoin sep (b :: t)).take a.length
            = a := List.take_left a _
    | succ k =>
      cases rest with
      | nil => simp at h
      | cons b t =>
        have hk : k < (b :: t).length := by
          have := h
          simp at this ⊢
          omega
        have hsum : (((a :: b :: t).take (k + 1)).map (fun l => l.length + 1)).sum
            = (a.length + 1) + (((b :: t).take k).map (fun l => l.length + 1)).sum := by
          simp [List.take]
        have hjoin : charJoin sep (a :: b :: t) = (a ++ [sep]) ++ charJoin sep (b :: t) := by
          show a ++ sep :: charJoin sep (b :: t) = (a ++ [sep]) ++ charJoin sep (b :: t)
          simp
        have hget : (a :: b :: t).get ⟨k + 1, h⟩ = (b :: t).get ⟨k, hk⟩ := rfl
        rw [hsum, hjoin, hget]
        have hlen : (a ++ [sep]).length = a.length + 1 := by simp
        rw [show (a.length + 1) + (((b :: t).take k).map (fun l => l.length + 1)).sum
            = (a ++ [sep]).length + (((b :: t).take k).map (fun l => l.length + 1)).sum by rw [hlen]]
        rw [List.drop_append]
        exact ih k hk

theorem joinNl_slice (ls : List String) (k : Nat) (h : k < ls.length) :
    sliceChars (joinNl ls) (lineStart ls k) (lineStart ls k + lenS (ls.get ⟨k, h⟩))
      = ls.get ⟨k, h⟩ := by
  have hk2 : k < (ls.map String.data).length := by simpa using h
  have hmain := charJoin_drop_take '\n' (ls.map String.data) k hk2
  have hget : (ls.map String.data).get ⟨k, hk2⟩ = (ls.get ⟨k, h⟩).data := by
    simp
  have hstart : (((ls.map String.data).take k).map (fun l => l.length + 1)).sum
      = lineStart ls k := by
    unfold lineStart
    rw [← List.map_take, List.map_map]
    rfl
  rw [hget, hstart] at hmain
  unfold sliceChars joinNl lenS
  have harith : lineStart ls k + (ls.get ⟨k, h⟩).data.length - lineStart ls k
      = (ls.get ⟨k, h⟩).data.length := by omega
  rw [show (String.mk (charJoin '\n' (ls.map String.data))).data
      = charJoin '\n' (ls.map String.data) from rfl, harith, hmain]

/- ===== Lemmas: the summarizer reads only content ===== -/

theorem textProj_factor (b : Block) : textProj b = textProjK (contentKey b) := by
  cases b <;> rfl

theorem linkProj_factor (b : Block) : linkProj b = linkProjK (contentKey b) := by
  cases b <;> rfl

theorem readProj_factor (b : Block) : readProj b = readProjK (contentKey b) := by
  cases b <;> rfl

theorem id_factor (b : Block) : Block.id b = keyId (contentKey b) := by
  cases b <;> rfl

theorem filterMap_factor {γ : Type} (f : Block → Option γ) (g : BlockKey → Option γ)
    (hf : ∀ b, f b = g (contentKey b)) (bs : List Block) :
    bs.filterMap f = (bs.map contentKey).filterMap g := by
  rw [List.filterMap_map]
  congr 1
  funext b
  exact hf b

theorem map_id_factor (bs : List Block) : bs.map Block.id = (bs.map contentKey).map keyId := by
  rw [List.map_map]
  congr 1
  funext b
  exact id_factor b

theorem head_id_factor (bs : List Block) :
    (bs.head?).map Block.id = ((bs.map contentKey).head?).map keyId := by
  rw [List.head?_map, Option.map_map]
  congr 1
  funext b
  exact id_factor b

/- ===== Lemmas: QA scope containment ===== -/

theorem mkAnswer_sub (scopeIds : List String) (t : String) (ids : List String) :
    ∀ id ∈ (mkAnswer scopeIds t ids).blockIds, id ∈ scopeIds := by
  intro id hid
  unfold mkAnswer at hid
  cases he : (ids.filter (inScope scopeIds)).isEmpty with
  | true =>
    simp only [he, if_true] at hid
    exact List.mem_of_mem_take hid
  | false =>
    simp only [he, Bool.false_eq_true, if_false] at hid
    have := (List.mem_filter.mp hid).2
    exact (contains_iff_str scopeIds id).mp this

theorem qaAnswers_sub (q : String) (scopeIds : List String) (entries : List LineEntry) :
    ∀ a ∈ qaAnswers q scopeIds entries, ∀ id ∈ a.blockIds, id ∈ scopeIds := by
  intro a ha id hid
  simp only [qaAnswers] at ha
  repeat' split at ha
  all_goals
    first
    | (rcases List.mem_singleton.mp ha with rfl
       exact mkAnswer_sub _ _ _ id hid)
    | (rcases List.mem_map.mp ha with ⟨e, _, rfl⟩
       exact mkAnswer_sub _ _ _ id hid)

/-- Every QA registry key is either empty or splits into in-scope ids. -/
def QaRegSub (scopeIds : List String) (reg : List (String × Nat)) : Prop :=
  ∀ p ∈ reg, p.1 = "" ∨ ∀ id ∈ splitPipeS p.1, id ∈ scopeIds

theorem citKey_nil : citKey [] = "" := rfl

theorem qaRegSub_ensureCit (scopeIds : List String) (reg : List (String × Nat))
    (ids : List String) (hreg : QaRegSub scopeIds reg)
    (hsub : ∀ id ∈ ids, id ∈ scopeIds)
    (hfree : ∀ id ∈ scopeIds, hasChar id '|' = false) :
    QaRegSub scopeIds (ensureCit reg ids).2 := by
  rcases ensureCit_snd reg ids with e | e <;> rw [e]
  · exact hreg
  · intro p hp
    rcases List.mem_append.mp hp with hold | hnew
    · exact hreg p hold
    · rcases List.mem_singleton.mp hnew with rfl
      by_cases hne : ids = []
      · left
        rw [hne]
        exact citKey_nil
      · right
        intro id hid
        exact hsub id (splitPipeS_citKey_sub ids hne
          (fun i hi => hfree i (hsub i hi)) id hid)

theorem numberAnswers_reg (scopeIds : List String) (answers : List AnswerEntry)
    (reg : List (String × Nat)) (hreg : QaRegSub scopeIds reg)
    (hans : ∀ a ∈ answers, ∀ id ∈ a.blockIds, id ∈ scopeIds)
    (hfree : ∀ id ∈ scopeIds, hasChar id '|' = false) :
    QaRegSub scopeIds (numberAnswers reg answers).2 := by
  induction answers generalizing reg with
  | nil => exact hreg
  | cons a rest ih =>
    have hstep : (numberAnswers reg (a :: rest)).2
        = (numberAnswers (ensureCit reg a.blockIds).2 rest).2 := rfl
    rw [hstep]
    exact ih _ (qaRegSub_ensureCit scopeIds reg a.blockIds hreg
        (hans a (List.mem_cons_self a rest)) hfree)
      (fun x hx => hans x (List.mem_cons_of_mem a hx))

/- ===== Lemmas: one registry run ===== -/

theorem lookup_stable (reg ext : List (String × Nat)) (k : String)
    (h : (reg.lookup k).isSome) : (reg ++ ext).lookup k = reg.lookup k := by
  rw [List.lookup_append]
  cases hl : reg.lookup k with
  | none => rw [hl] at h; simp at h
  | some n => simp

theorem lookup_singleton_self (k : String) (v : Nat) :
    ([(k, v)] : List (String × Nat)).lookup k = some v := by
  simp [List.lookup_cons]

theorem ensureCit_lookup (reg : List (String × Nat)) (ids : List String) :
    (ensureCit reg ids).2.lookup (citKey ids) = some (ensureCit reg ids).1 := by
  unfold ensureCit
  cases hl : reg.lookup (citKey ids) with
  | some n => simp [hl]
  | none =>
    simp only [hl]
    rw [List.lookup_append, hl]
    simp [lookup_singleton_self (citKey ids) (reg.length + 1)]

theorem foldl_assign_acc (qs : List (List String)) (acc : List Nat)
    (reg : List (String × Nat)) :
    (qs.foldl assignStep (acc, reg)).1 = acc ++ (qs.foldl assignStep ([], reg)).1
    ∧ (qs.foldl assignStep (acc, reg)).2 = (qs.foldl assignStep ([], reg)).2 := by
  induction qs generalizing acc reg with
  | nil => simp
  | cons q rest ih =>
    have e1 : (q :: rest).foldl assignStep (acc, reg)
        = rest.foldl assignStep (acc ++ [(ensureCit reg q).1], (ensureCit reg q).2) := rfl
    have e2 : (q :: rest).foldl assignStep ([], reg)
        = rest.foldl assignStep ([(ensureCit reg q).1], (ensureCit reg q).2) := rfl
    rw [e1, e2]
    obtain ⟨a1, a2⟩ := ih (acc ++ [(ensureCit reg q).1]) (ensureCit reg q).2
    obtain ⟨b1, b2⟩ := ih [(ensureCit reg q).1] (ensureCit reg q).2
    constructor
    · rw [a1, b1, List.append_assoc]
    · rw [a2, b2]

theorem assign_facts (qs : List (List String)) (reg : List (String × Nat))
    (hvals : reg.map Prod.snd = List.range' 1 reg.length) :
    (∃ ext, (qs.foldl assignStep ([], reg)).2 = reg ++ ext)
    ∧ ((qs.foldl assignStep ([], reg)).2.map Prod.snd
        = List.range' 1 (qs.foldl assignStep ([], reg)).2.length)
    ∧ (∀ q ∈ qs, ((qs.foldl assignStep ([], reg)).2.lookup (citKey q)).isSome)
    ∧ (qs.foldl assignStep ([], reg)).1
        = qs.map (fun q => (((qs.foldl assignStep ([], reg)).2.lookup (citKey q))).getD 0) := by
  induction qs generalizing reg with
  | nil => exact ⟨⟨[], by simp⟩, by simpa using hvals, by simp, by simp⟩
  | cons q rest ih =>
    have hr2vals := ensureCit_vals reg q hvals
    obtain ⟨⟨ext, hext⟩, hvals2, hsurj, hchar⟩ := ih (ensureCit reg q).2 hr2vals
    have hE : (q :: rest).foldl assignStep ([], reg)
        = rest.foldl assignStep ([(ensureCit reg q).1], (ensureCit reg q).2) := rfl
    have hA := foldl_assign_acc rest [(ensureCit reg q).1] (ensureCit reg q).2
    have hA1 : ((q :: rest).foldl assignStep ([], reg)).1
        = [(ensureCit reg q).1] ++ (rest.foldl assignStep ([], (ensureCit reg q).2)).1 := by
      rw [hE]; exact hA.1
    have hA2 : ((q :: rest).foldl assignStep ([], reg)).2
        = (rest.foldl assignStep ([], (ensureCit reg q).2)).2 := by
      rw [hE]; exact hA.2
    have hq : (rest.foldl assignStep ([], (ensureCit reg q).2)).2.lookup (citKey q)
        = some (ensureCit reg q).1 := by
      rw [hext, lookup_stable _ ext (citKey q) (by rw [ensureCit_lookup]; rfl)]
      exact ensureCit_lookup reg q
    refine ⟨?_, ?_, ?_, ?_⟩
    · rcases ensureCit_snd reg q with e | e
      · exact ⟨ext, by rw [hA2, hext, e]⟩
      · exact ⟨[(citKey q, reg.length + 1)] ++ ext, by rw [hA2, hext, e, List.append_assoc]⟩
    · rw [hA2]; exact hvals2
    · intro p hp
      rcases List.mem_cons.mp hp with rfl | hp2
      · rw [hA2, hq]; rfl
      · rw [hA2]; exact hsurj p hp2
    · rw [hA1, hA2, List.map_cons, hq]
      simp only [Option.getD_some]
      rw [hchar]
      rfl

theorem finalReg_vals (qs : List (List String)) :
    (finalReg qs).map Prod.snd = List.range' 1 (finalReg qs).length :=
  (assign_facts qs [] rfl).2.1

theorem assign_surj (qs : List (List String)) :
    ∀ q ∈ qs, ((finalReg qs).lookup (citKey q)).isSome :=
  (assign_facts qs [] rfl).2.2.1

theorem assignNumbers_eq_map (qs : List (List String)) :
    assignNumbers qs = qs.map (fun q => (((finalReg qs).lookup (citKey q))).getD 0) :=
  (assign_facts qs [] rfl).2.2.2

theorem snd_nodup_mem_eq (l : List (String × Nat)) (hnd : (l.map Prod.snd).Nodup)
    (k1 k2 : String) (n : Nat) (h1 : (k1, n) ∈ l) (h2 : (k2, n) ∈ l) : k1 = k2 := by
  induction l with
  | nil => simp at h1
  | cons p rest ih =>
    simp only [List.map_cons, List.nodup_cons] at hnd
    rcases List.mem_cons.mp h1 with e1 | m1 <;> rcases List.mem_cons.mp h2 with e2 | m2
    · rw [← e2] at e1
      exact congrArg Prod.fst e1
    · exfalso
      apply hnd.1
      have : p.2 = n := congrArg Prod.snd e1.symm
      rw [this]
      exact List.mem_map.mpr ⟨(k2, n), m2, rfl⟩
    · exfalso
      apply hnd.1
      have : p.2 = n := congrArg Prod.snd e2.symm
      rw [this]
      exact List.mem_map.mpr ⟨(k1, n), m1, rfl⟩
    · exact ih hnd.2 m1 m2

theorem lookup_inj_vals (reg : List (String × Nat)) (hnd : (reg.map Prod.snd).Nodup)
    (k1 k2 : String) (n1 n2 : Nat) (h1 : reg.lookup k1 = some n1)
    (h2 : reg.lookup k2 = some n2) (he : n1 = n2) : k1 = k2 :=
  snd_nodup_mem_eq reg hnd k1 k2 n1 (lookup_mem h1) (by rw [he]; exact lookup_mem h2)

theorem list_toFinset_map {α β : Type} [DecidableEq α] [DecidableEq β] (f : α → β)
    (l : List α) : (l.map f).toFinset = l.toFinset.image f := by
  ext x
  simp

/- ===================================================================
   Claim theorems
   =================================================================== -/

/-- C2 counterexample: for the empty input block list, `summarize` cites the
    sentinel id "unknown", which is not a member of the (empty)
    `evidenceBlockIds`, so the invariant as universally stated fails at the
    explicit input `[]`. -/
theorem summary_invariant_empty_counterexample :
    ¬ (∀ c ∈ (summarizeSelection []).citations, ∀ id ∈ c.blockIds,
        id ∈ (summarizeSelection []).evidenceBlockIds) := by
  decide

/-- C2 (amended): for every non-empty input block list whose block ids do not
    contain the registry separator character, the returned Summary satisfies:
    every citation number referenced in `spans` appears exactly once as an
    `n` value in `citations`, and every block id in every citation entry is a
    member of `evidenceBlockIds`. -/
theorem summary_citation_invariant (blocks : List Block) (hne : blocks ≠ [])
    (hfree : ∀ b ∈ blocks, hasChar (Block.id b) '|' = false) :
    (∀ s ∈ (summarizeSelection blocks).spans, ∀ n ∈ s.citationNs,
      ((summarizeSelection blocks).citations.countP (fun c => c.n == n)) = 1)
    ∧ ∀ c ∈ (summarizeSelection blocks).citations, ∀ id ∈ c.blockIds,
        id ∈ (summarizeSelection blocks).evidenceBlockIds := by
  have hfin : FInv (renderedState blocks) :=
    finv_renderedCore (blocks.filterMap textProj) (blocks.filterMap linkProj)
      ((blocks.filterMap readProj).take 3) ((blocks.head?).map Block.id)
  constructor
  · intro s hs n hn
    rw [summarize_spans_eq] at hs
    rw [summarize_citations_eq]
    exact buildCitations_count _ n hfin.reg_vals (hfin.spans_ns s hs n hn)
  · intro c hc id hid
    rw [summarize_citations_eq] at hc
    rcases mem_buildCitations _ c hc with ⟨p, hp, rfl⟩
    rw [summarize_evidence_eq]
    exact regSub_renderedState blocks hne hfree p hp id hid

/-- C2 witness: the invariant instantiated at the one-block list `[blockT1]`. -/
theorem summary_citation_invariant_witness :
    (([blockT1] : List Block) ≠ []
      ∧ ∀ b ∈ ([blockT1] : List Block), hasChar (Block.id b) '|' = false)
    ∧ ((∀ s ∈ (summarizeSelection [blockT1]).spans, ∀ n ∈ s.citationNs,
        ((summarizeSelection [blockT1]).citations.countP (fun c => c.n == n)) = 1)
      ∧ ∀ c ∈ (summarizeSelection [blockT1]).citations, ∀ id ∈ c.blockIds,
          id ∈ (summarizeSelection [blockT1]).evidenceBlockIds) :=
  ⟨⟨by decide, by decide⟩, summary_citation_invariant [blockT1] (by decide) (by decide)⟩

/-- C4: the summarizer at the failing input, a lone image block.  No caption
    can exist (the model has no caption field) and no image content is read:
    the output is identical for different image sources and is the fallback
    line, while the image id still appears in the evidence.  This documents
    the divergence from the spec, whose image blocks carry an optional
    caption that participates in summarization input. -/
theorem image_blocks_ignored :
    summarizeSelection [imageOnlyA] = summarizeSelection [imageOnlyB]
    ∧ (summarizeSelection [imageOnlyA]).summaryText = fallbackLine
    ∧ (summarizeSelection [imageOnlyA]).evidenceBlockIds = ["IMG-1"] := by
  decide

/-- C5 counterexample: in the scenario QA call about decisions, some returned
    citation references the id of T2, contradicting the claim that only the
    id of T1 is referenced. -/
theorem qa_decisions_cites_t2_counterexample :
    ∃ c ∈ scenarioQa.citations, "T2" ∈ c.blockIds := by
  decide

/-- C5 (amended): the scenario QA call about decisions returns a non-empty
    answer; its citations reference the ids of T1 and of T2 (the matched
    tension line combines both under one citation) and reference no other id,
    in particular never the id of L1. -/
theorem qa_decisions_scenario :
    scenarioQa.answer ≠ ""
    ∧ (∃ c ∈ scenarioQa.citations, "T1" ∈ c.blockIds)
    ∧ (∃ c ∈ scenarioQa.citations, "T2" ∈ c.blockIds)
    ∧ (∀ c ∈ scenarioQa.citations, ∀ id ∈ c.blockIds, id = "T1" ∨ id = "T2") := by
  decide

/-- C6: the scenario summary has a "Key tensions / open questions" section
    whose single combined line cites both T1 and T2 under one citation
    number, and its "What this seems to be about" line cites L1. -/
theorem summarize_scenario_sections :
    splitNl scenarioSummary.summaryText
      = ["What this seems to be about:", "• spec (https://x)",
         "Key tensions / open questions:",
         "• Decision draft: ship the list view first.; Open question: how do we handle empty states?",
         "Best blocks to read next:", "• T1: primary notes", "• T2: primary notes",
         "• L1: reference link"]
    ∧ (∃ s ∈ scenarioSummary.spans,
        sliceChars scenarioSummary.summaryText s.start s.stop
          = "• Decision draft: ship the list view first.; Open question: how do we handle empty states?"
        ∧ s.citationNs = [2])
    ∧ (⟨2, ["T1", "T2"]⟩ : Citation) ∈ scenarioSummary.citations
    ∧ (∃ s ∈ scenarioSummary.spans,
        sliceChars scenarioSummary.summaryText s.start s.stop = "• spec (https://x)"
        ∧ s.citationNs = [1])
    ∧ (⟨1, ["L1"]⟩ : Citation) ∈ scenarioSummary.citations := by
  decide

/-- C7: summarize of the empty block list returns the single fallback line,
    empty evidence, and exactly one citation referencing the sentinel id
    "unknown". -/
theorem summarize_empty_fallback :
    (summarizeSelection []).summaryText = fallbackLine
    ∧ (summarizeSelection []).evidenceBlockIds = []
    ∧ (summarizeSelection []).citations = [⟨1, ["unknown"]⟩] := by
  decide

/-- C8 counterexample: for the one-block input `[riskBlock]` the first
    emitted line of the summary text is the section heading, and no span
    starts at offset 0, so the claim that spans record the offsets of every
    emitted line fails at this explicit input. -/
theorem spans_heading_counterexample :
    (splitNl (summarizeSelection [riskBlock]).summaryText).head?
      = some "Key tensions / open questions:"
    ∧ ∀ s ∈ (summarizeSelection [riskBlock]).spans, s.start ≠ 0 := by
  decide

/-- C8 (amended): for every input block list, every span of the returned
    Summary records the exact character interval of one emitted line of the
    summary text: the slice of `summaryText` from `start` (inclusive) to
    `stop` (exclusive) equals that emitted line, together with its citation
    numbers.  Section heading lines receive no span. -/
theorem spans_delimit_lines (blocks : List Block) :
    ∀ s ∈ (summarizeSelection blocks).spans,
      ∃ k, ∃ h : k < (renderedState blocks).orderedLines.length,
        s.start = lineStart (renderedState blocks).orderedLines k
        ∧ s.stop = s.start + lenS ((renderedState blocks).orderedLines.get ⟨k, h⟩)
        ∧ sliceChars (summarizeSelection blocks).summaryText s.start s.stop
            = (renderedState blocks).orderedLines.get ⟨k, h⟩ := by
  intro s hs
  have hfin : FInv (renderedState blocks) :=
    finv_renderedCore (blocks.filterMap textProj) (blocks.filterMap linkProj)
      ((blocks.filterMap readProj).take 3) ((blocks.head?).map Block.id)
  rw [summarize_spans_eq] at hs
  obtain ⟨k, hk, h1, h2⟩ := hfin.spans_ok s hs
  refine ⟨k, hk, h1, h2, ?_⟩
  rw [summarize_text_eq, h1, h2, h1]
  exact joinNl_slice _ k hk

/-- C8 witness: the first span of the `[riskBlock]` summary delimits the
    bullet line exactly. -/
theorem spans_delimit_lines_witness :
    ((⟨31, 37, [1]⟩ : SummarySpan) ∈ (summarizeSelection [riskBlock]).spans)
    ∧ ∃ k, ∃ h : k < (renderedState [riskBlock]).orderedLines.length,
        (31 : Nat) = lineStart (renderedState [riskBlock]).orderedLines k
        ∧ (37 : Nat) = 31 + lenS ((renderedState [riskBlock]).orderedLines.get ⟨k, h⟩)
        ∧ sliceChars (summarizeSelection [riskBlock]).summaryText 31 37
            = (renderedState [riskBlock]).orderedLines.get ⟨k, h⟩ :=
  ⟨by decide, spans_delimit_lines [riskBlock] ⟨31, 37, [1]⟩ (by decide)⟩

/-- C1 counterexample: a QA call whose scope holds the single id "a|b"
    returns citations referencing "a" and "b", neither of which is a member
    of the scope — the registry splits its key on the separator character
    inside the id. -/
theorem qa_scope_pipe_counterexample :
    ¬ (∀ c ∈ (generateQaAnswer "banana" ["a|b"] "hello" (some []) (some [])).citations,
        ∀ id ∈ c.blockIds, id ∈ (["a|b"] : List String)) := by
  decide

/-- C1 (amended): for every QA call whose scope ids do not contain the
    registry separator character, every block id appearing in any returned
    citation is a member of the supplied scope ids — even when the summary
    citation table references ids outside the scope. -/
theorem qa_scope_containment (question : String) (scopeIds : List String)
    (summaryText : String) (spans : Option (List SummarySpan))
    (table : Option (List Citation))
    (hfree : ∀ id ∈ scopeIds, hasChar id '|' = false) :
    ∀ c ∈ (generateQaAnswer question scopeIds summaryText spans table).citations,
      ∀ id ∈ c.blockIds, id ∈ scopeIds := by
  intro c hc id hid
  simp only [generateQaAnswer] at hc
  split at hc
  · simp at hc
  · split at hc
    · simp only [List.mem_singleton] at hc
      subst hc
      exact List.mem_of_mem_take hid
    · simp only [qaCitations] at hc
      rcases List.mem_map.mp hc with ⟨p, hp, rfl⟩
      have hinv : QaRegSub scopeIds (numberAnswers []
          (qaAnswers (lowerStr (trimStr question)) scopeIds
            (mkLineEntries scopeIds (spans.getD []) (table.getD []) 0
              (splitNl summaryText)))).2 :=
        numberAnswers_reg scopeIds _ [] (by intro q hq; simp at hq)
          (qaAnswers_sub _ scopeIds _) hfree
      cases hps : (p.1 == "") with
      | true => simp [hps] at hid
      | false =>
        simp only [hps, Bool.false_eq_true, if_false] at hid
        rcases hinv p hp with he | hsub
        · rw [he] at hps
          simp at hps
        · exact hsub id hid

/-- C1 witness: containment instantiated at a concrete call with scope
    ["a", "b"]. -/
theorem qa_scope_containment_witness :
    (∀ id ∈ (["a", "b"] : List String), hasChar id '|' = false)
    ∧ ∀ c ∈ (generateQaAnswer "banana" ["a", "b"] "hello" (some []) (some [])).citations,
        ∀ id ∈ c.blockIds, id ∈ (["a", "b"] : List String) :=
  ⟨by decide,
    qa_scope_containment "banana" ["a", "b"] "hello" (some []) (some []) (by decide)⟩

/-- C9 counterexample: a stored snapshot with the current schema version and
    a blocks array whose single element is the bare number 42 is returned
    as-is by `loadState` — the loader does not validate that the stored
    blocks are well-formed block objects, so it does not return "no saved
    state" for a malformed block list. -/
theorem loadState_unchecked_blocks_counterexample :
    loadState (some (.ok versionedSnap)) = some [Json.num 42]
    ∧ isBlockJson (Json.num 42) = false :=
  ⟨rfl, rfl⟩

/-- C9 (amended): `loadState` returns "no saved state" (`none`) rather than
    failing when the snapshot is absent, when parsing threw, when the parsed
    value is falsy, when the schema version is not the current version, and
    when the blocks field is not an array; otherwise it returns the stored
    blocks array unchanged (without validating its elements). -/
theorem loadState_degrades_to_none :
    (loadState none = none)
    ∧ (∀ msg : String, loadState (some (.error msg)) = none)
    ∧ (∀ j : Json, isTruthy j = false → loadState (some (.ok j)) = none)
    ∧ (∀ j : Json, getField j "schemaVersion" ≠ some (Json.num SCHEMA_VERSION) →
        loadState (some (.ok j)) = none)
    ∧ (∀ j : Json, (∀ xs : List Json, getField j "blocks" ≠ some (Json.arr xs)) →
        loadState (some (.ok j)) = none)
    ∧ (∀ (j : Json) (xs : List Json), isTruthy j = true →
        getField j "schemaVersion" = some (Json.num SCHEMA_VERSION) →
        getField j "blocks" = some (Json.arr xs) →
        loadState (some (.ok j)) = some xs) := by
  refine ⟨rfl, fun msg => rfl, ?_, ?_, ?_, ?_⟩
  · intro j h
    unfold loadState
    simp [h]
  · intro j h
    unfold loadState
    cases ht : isTruthy j with
    | false => simp [ht]
    | true =>
      cases hv : getField j "schemaVersion" with
      | none => simp [ht, hv]
      | some v =>
        cases v with
        | num n =>
          have hne : n ≠ SCHEMA_VERSION := by
            intro e
            apply h
            rw [hv, e]
          have hn : (n != SCHEMA_VERSION) = true := by
            simpa [bne_iff_ne] using hne
          simp [ht, hv, hn]
        | null => simp [ht, hv]
        | bool b => simp [ht, hv]
        | str s => simp [ht, hv]
        | arr xs => simp [ht, hv]
        | obj fs => simp [ht, hv]
  · intro j h
    unfold loadState
    cases ht : isTruthy j with
    | false => simp [ht]
    | true =>
      cases hv : getField j "schemaVersion" with
      | none => simp [ht, hv]
      | some v =>
        cases v with
        | num n =>
          cases hn : (n != SCHEMA_VERSION) with
          | true => simp [ht, hv, hn]
          | false =>
            cases hb : getField j "blocks" with
            | none => simp [ht, hv, hn, hb]
            | some bj =>
              cases bj with
              | arr xs => exact absurd hb (h xs)
              | null => simp [ht, hv, hn, hb]
              | bool b => simp [ht, hv, hn, hb]
              | num m => simp [ht, hv, hn, hb]
              | str s => simp [ht, hv, hn, hb]
              | obj fs => simp [ht, hv, hn, hb]
        | null => simp [ht, hv]
        | bool b => simp [ht, hv]
        | str s => simp [ht, hv]
        | arr xs => simp [ht, hv]
        | obj fs => simp [ht, hv]
  · intro j xs ht hv hb
    unfold loadState
    simp [ht, hv, hb]

/-- C9 witness: the loader instantiated at a well-formed snapshot with the
    current version and an empty blocks array. -/
theorem loadState_degrades_to_none_witness :
    (isTruthy (Json.obj [("schemaVersion", Json.num 1), ("blocks", Json.arr [])]) = true
      ∧ getField (Json.obj [("schemaVersion", Json.num 1), ("blocks", Json.arr [])])
          "schemaVersion" = some (Json.num SCHEMA_VERSION)
      ∧ getField (Json.obj [("schemaVersion", Json.num 1), ("blocks", Json.arr [])])
          "blocks" = some (Json.arr []))
    ∧ loadState (some (.ok (Json.obj [("schemaVersion", Json.num 1), ("blocks", Json.arr [])])))
        = some [] :=
  ⟨⟨rfl, rfl, rfl⟩,
    loadState_degrades_to_none.2.2.2.2.2
      (Json.obj [("schemaVersion", Json.num 1), ("blocks", Json.arr [])]) [] rfl rfl rfl⟩

/-- Join is injective on lists of non-empty separator-free ids. -/
theorem joinPipeS_inj_on_clean (l1 l2 : List String)
    (h1 : ∀ s ∈ l1, s ≠ "" ∧ hasChar s '|' = false)
    (h2 : ∀ s ∈ l2, s ≠ "" ∧ hasChar s '|' = false)
    (he : joinPipeS l1 = joinPipeS l2) : l1 = l2 := by
  by_cases hn1 : l1 = []
  · by_cases hn2 : l2 = []
    · rw [hn1, hn2]
    · exfalso
      apply joinPipeS_ne_empty l2 hn2 (fun s hs => (h2 s hs).1)
      rw [← he, hn1]
      decide
  · by_cases hn2 : l2 = []
    · exfalso
      apply joinPipeS_ne_empty l1 hn1 (fun s hs => (h1 s hs).1)
      rw [he, hn2]
      decide
    · have r1 := splitPipeS_joinPipeS l1 hn1 (fun s hs => (h1 s hs).2)
      have r2 := splitPipeS_joinPipeS l2 hn2 (fun s hs => (h2 s hs).2)
      rw [← r1, ← r2, he]

/-- C3 counterexample: within one registry run, the queries ["a","b"] and
    ["a|b"] have different deduplicated sorted evidence sets yet receive the
    same citation number (their joined keys collide), so the number of
    distinct citation numbers is smaller than the number of distinct
    evidence sets used. -/
theorem registry_minimal_counterexample :
    dedupSort ["a", "b"] ≠ dedupSort ["a|b"]
    ∧ assignNumbers [["a", "b"], ["a|b"]] = [1, 1]
    ∧ (assignNumbers [["a", "b"], ["a|b"]]).toFinset.card
        ≠ (([["a", "b"], ["a|b"]] : List (List String)).map dedupSort).toFinset.card := by
  decide

/-- C3 (amended): within one registry run (summarize and the QA responder
    each fold `ensureCit` from the empty registry), numbering starts at 1;
    any two queries with equal deduplicated, sorted evidence sets receive
    the same number; and, provided every block id is a non-empty string not
    containing the separator character, the number of distinct citation
    numbers equals the number of distinct evidence sets used. -/
theorem registry_stable_minimal (queries : List (List String)) :
    ((queries ≠ []) → (assignNumbers queries).head? = some 1)
    ∧ (∀ (i j : Nat) (qi qj : List String), queries[i]? = some qi →
        queries[j]? = some qj → dedupSort qi = dedupSort qj →
        (assignNumbers queries)[i]? = (assignNumbers queries)[j]?)
    ∧ ((∀ q ∈ queries, ∀ id ∈ q, id ≠ "" ∧ hasChar id '|' = false) →
        (assignNumbers queries).toFinset.card = (queries.map dedupSort).toFinset.card) := by
  refine ⟨?_, ?_, ?_⟩
  · intro hne
    cases queries with
    | nil => exact absurd rfl hne
    | cons q rest =>
      have hE : assignNumbers (q :: rest)
          = [(ensureCit [] q).1] ++ (rest.foldl assignStep ([], (ensureCit [] q).2)).1 := by
        unfold assignNumbers
        exact (foldl_assign_acc rest [(ensureCit [] q).1] (ensureCit [] q).2).1
      rw [hE]
      rfl
  · intro i j qi qj hi hj hd
    rw [assignNumbers_eq_map, List.getElem?_map, List.getElem?_map, hi, hj]
    have : citKey qi = citKey qj := by
      unfold citKey
      rw [hd]
    simp [this]
  · intro hids
    have hvals := finalReg_vals queries
    have hsurj := assign_surj queries
    rw [assignNumbers_eq_map]
    have h1 : queries.map (fun q => (((finalReg queries).lookup (citKey q))).getD 0)
        = (queries.map citKey).map (fun k => (((finalReg queries).lookup k)).getD 0) := by
      rw [List.map_map]
      rfl
    have h2 : queries.map citKey = (queries.map dedupSort).map joinPipeS := by
      rw [List.map_map]
      rfl
    rw [h1, list_toFinset_map, h2, list_toFinset_map]
    have hnd : ((finalReg queries).map Prod.snd).Nodup := by
      rw [hvals]
      exact List.nodup_range' 1 (finalReg queries).length
    rw [Finset.card_image_of_injOn, Finset.card_image_of_injOn]
    · intro l1 hl1 l2 hl2 he
      rw [Finset.mem_coe, List.mem_toFinset] at hl1 hl2
      rcases List.mem_map.mp hl1 with ⟨q1, hq1, rfl⟩
      rcases List.mem_map.mp hl2 with ⟨q2, hq2, rfl⟩
      refine joinPipeS_inj_on_clean _ _ ?_ ?_ he
      · intro s hs
        exact hids q1 hq1 s (dedupSort_subset q1 s hs)
      · intro s hs
        exact hids q2 hq2 s (dedupSort_subset q2 s hs)
    · intro k1 hk1 k2 hk2 he
      rw [Finset.mem_coe] at hk1 hk2
      rcases Finset.mem_image.mp hk1 with ⟨l1, hl1m, rfl⟩
      rcases Finset.mem_image.mp hk2 with ⟨l2, hl2m, rfl⟩
      rw [List.mem_toFinset] at hl1m hl2m
      rcases List.mem_map.mp hl1m with ⟨q1, hq1, rfl⟩
      rcases List.mem_map.mp hl2m with ⟨q2, hq2, rfl⟩
      have hs1 := hsurj q1 hq1
      have hs2 := hsurj q2 hq2
      have hck1 : joinPipeS (dedupSort q1) = citKey q1 := rfl
      have hck2 : joinPipeS (dedupSort q2) = citKey q2 := rfl
      rw [hck1, hck2] at he ⊢
      cases e1 : (finalReg queries).lookup (citKey q1) with
      | none => rw [e1] at hs1; simp at hs1
      | some n1 =>
        cases e2 : (finalReg queries).lookup (citKey q2) with
        | none => rw [e2] at hs2; simp at hs2
        | some n2 =>
          have hn : n1 = n2 := by
            simpa [e1, e2] using he
          exact lookup_inj_vals (finalReg queries) hnd _ _ n1 n2 e1 e2 hn

/-- C3 witness: a run with a repeated evidence set and a two-id set. -/
theorem registry_stable_minimal_witness :
    ((([["b"], ["a", "b"], ["b"]] : List (List String)) ≠ [])
      ∧ (∀ q ∈ ([["b"], ["a", "b"], ["b"]] : List (List String)), ∀ id ∈ q,
          id ≠ "" ∧ hasChar id '|' = false)
      ∧ (([["b"], ["a", "b"], ["b"]] : List (List String))[0]? = some ["b"]
        ∧ ([["b"], ["a", "b"], ["b"]] : List (List String))[2]? = some ["b"]))
    ∧ ((assignNumbers [["b"], ["a", "b"], ["b"]]).head? = some 1
      ∧ (assignNumbers [["b"], ["a", "b"], ["b"]])[0]?
          = (assignNumbers [["b"], ["a", "b"], ["b"]])[2]?
      ∧ (assignNumbers [["b"], ["a", "b"], ["b"]]).toFinset.card
          = (([["b"], ["a", "b"], ["b"]] : List (List String)).map dedupSort).toFinset.card) :=
  ⟨⟨by decide, by decide, by decide, by decide⟩,
    ⟨(registry_stable_minimal [["b"], ["a", "b"], ["b"]]).1 (by decide),
     (registry_stable_minimal [["b"], ["a", "b"], ["b"]]).2.1 0 2 ["b"] ["b"]
       (by decide) (by decide) (by decide),
     (registry_stable_minimal [["b"], ["a", "b"], ["b"]]).2.2 (by decide)⟩⟩

/-- C10: the output of summarize depends only on the id, variant
    tag and content fields of each block (text for text blocks, label and
    url for link blocks): two input lists with equal content keys — which may differ
    arbitrarily in position, width, height, aspect, timestamps, image source
    and summary payload — produce identical Summaries. -/
theorem summarize_content_only (bs1 bs2 : List Block)
    (h : bs1.map contentKey = bs2.map contentKey) :
    summarizeSelection bs1 = summarizeSelection bs2 := by
  unfold summarizeSelection
  rw [map_id_factor bs1, map_id_factor bs2,
    filterMap_factor textProj textProjK textProj_factor bs1,
    filterMap_factor textProj textProjK textProj_factor bs2,
    filterMap_factor linkProj linkProjK linkProj_factor bs1,
    filterMap_factor linkProj linkProjK linkProj_factor bs2,
    filterMap_factor readProj readProjK readProj_factor bs1,
    filterMap_factor readProj readProjK readProj_factor bs2,
    head_id_factor bs1, head_id_factor bs2,
    show bs1.length = (bs1.map contentKey).length from (List.length_map _ _).symm,
    show bs2.length = (bs2.map contentKey).length from (List.length_map _ _).symm,
    h]

/-- C10 witness: two one-block lists that differ in position, size, height
    and timestamps but agree on id, type and text produce the same Summary. -/
theorem summarize_content_only_witness :
    ([Block.text ⟨"W1", 5, 7, 300, some 80, "2024-01-01", "2024-01-02"⟩ "must ship"].map contentKey
      = [Block.text ⟨"W1", 900, 2, 120, none, "2025-06-06", "2025-06-07"⟩ "must ship"].map contentKey)
    ∧ summarizeSelection [Block.text ⟨"W1", 5, 7, 300, some 80, "2024-01-01", "2024-01-02"⟩ "must ship"]
        = summarizeSelection [Block.text ⟨"W1", 900, 2, 120, none, "2025-06-06", "2025-06-07"⟩ "must ship"] :=
  ⟨by decide, summarize_content_only _ _ (by decide)⟩
